import Mathlib

/-!
Verification development for the patch application core of automerge-py
(src/automerge/apply_patch.py).  The Python source is shallowly embedded:
dictionaries become insertion-ordered association lists, Python lists become
Lean lists, in-place mutation becomes explicit state threading, and raised
exceptions become an explicit error component.  The concrete container
classes (Map, List, Counter) live in a datatypes module that is not part of
the given sources; their mutation API (dict-like and list-like item access)
is modelled from the spec, which treats that API as consumed, not designed.

Recursion through nested sub-patches is paid for with an explicit fuel
parameter; a fuel-exhausted run returns Option.none, which is an artifact of
the embedding and distinct from every Python exception.
-/

set_option linter.unusedVariables false

namespace AutomergePy

/-- Primitive JSON-ish values carried by leaf patches. -/
inductive Prim : Type where
  | num (n : Int)
  | str (s : String)
  | bool (b : Bool)
  | null
deriving DecidableEq, Repr

/-- A key of the props mapping: a string key (map containers) or an
integer index (list containers). -/
inductive PKey : Type where
  | str (s : String)
  | idx (n : Nat)
deriving DecidableEq, Repr

/-- The runtime errors the Python code can raise.  The first two are the
error kinds named by the spec (raised as generic Exception with a message
in the code); the rest are Python builtin exceptions reachable from the
given code paths. -/
inductive Err : Type where
  | malformedIdentifier (s : String)
  | unknownPatchType
  | attributeError
  | keyError
  | indexError
  | typeError
  | assertionError
deriving DecidableEq, Repr

/-- A structural list edit, as read by update_list_obj: the action string,
the index, and the element id (read only for insert actions). -/
structure Edit : Type where
  action : String
  index : Nat
  elemId : String
deriving DecidableEq, Repr

/-- A patch tree node.  Each field models the optional presence of the
corresponding key in the Python dict describing the patch. -/
inductive Patch : Type where
  | mk (type? : Option String) (objectId? : Option String)
       (value? : Option Prim) (datatype? : Option String)
       (props? : Option (List (PKey × List (String × Patch))))
       (edits? : Option (List Edit))

/-- Field accessor mirroring patch.get for the type field. -/
def Patch.ptype : Patch → Option String
  | .mk t _ _ _ _ _ => t

/-- Field accessor for the objectId field. -/
def Patch.pobjectId : Patch → Option String
  | .mk _ o _ _ _ _ => o

/-- Field accessor for the value field. -/
def Patch.pvalue : Patch → Option Prim
  | .mk _ _ v _ _ _ => v

/-- Field accessor for the datatype field. -/
def Patch.pdatatype : Patch → Option String
  | .mk _ _ _ d _ _ => d

/-- Field accessor for the props field. -/
def Patch.pprops : Patch → Option (List (PKey × List (String × Patch)))
  | .mk _ _ _ _ p _ => p

/-- Field accessor for the edits field. -/
def Patch.pedits : Patch → Option (List Edit)
  | .mk _ _ _ _ _ e => e

/-- A materialized document value.  Map and List containers carry their
objectId, the frozen mutation-guard flag, their contents and their conflict
history (recent_ops).  List value slots and list recent_ops slots may hold
Python None placeholders, hence the Option layers. -/
inductive Value : Type where
  | prim (p : Prim)
  | counter (p : Prim)
  | map (objectId : String) (frozen : Bool)
        (entries : List (PKey × Value))
        (recentOps : List (PKey × List (String × Value)))
  | list (objectId : String) (frozen : Bool)
         (values : List (Option Value))
         (elemIds : List String)
         (recentOps : List (Option (List (String × Value))))

/-- The conflict set for one key: OperationId string to sub-patch,
insertion ordered like a Python dict. -/
abbrev Cands := List (String × Patch)

/-- The props mapping of a patch. -/
abbrev Props := List (PKey × Cands)

/-! ### Association list helpers with Python dict semantics -/

/-- Dict lookup: the value stored at the first (unique) matching key. -/
def alGet {κ α : Type _} [DecidableEq κ] (k : κ) : List (κ × α) → Option α
  | [] => none
  | (k', v) :: rest => if k = k' then some v else alGet k rest

/-- Dict assignment: update in place when the key is present (keeping its
position, as Python dicts do), otherwise append at the end. -/
def alSet {κ α : Type _} [DecidableEq κ] (k : κ) (v : α) : List (κ × α) → List (κ × α)
  | [] => [(k, v)]
  | (k', v') :: rest => if k = k' then (k, v) :: rest else (k', v') :: alSet k v rest

/-- Dict deletion of a present key (the caller checks presence first, since
Python del raises KeyError on a missing key). -/
def alDel {κ α : Type _} [DecidableEq κ] (k : κ) : List (κ × α) → List (κ × α)
  | [] => []
  | (k', v') :: rest => if k = k' then rest else (k', v') :: alDel k rest

/-- Dict membership test. -/
def alHasKey {κ α : Type _} [DecidableEq κ] (k : κ) (l : List (κ × α)) : Bool :=
  (alGet k l).isSome

/-- Python list.insert semantics: an index at or past the end appends. -/
def pyInsert {α : Type _} (n : Nat) (a : α) (l : List α) : List α :=
  if n ≥ l.length then l ++ [a] else l.insertIdx n a

/-! ### Lamport identifiers (parse_op_id, lamport_compare) -/

/-- The integer value of a digit string, as Python int() on digits. -/
def digitsToNat (ds : List Char) : Nat :=
  ds.foldl (fun n c => n * 10 + (c.toNat - 48)) 0

/-- The matcher for the regular expression used by parse_op_id, which
anchors a digit group, an at sign, and a dot-star group.  Python re
semantics make the dot stop at a newline and let the final anchor also
match just before one trailing newline, which is then left out of the
captured actor id.  Digits are modelled as ASCII digits. -/
def opIdMatch (cs : List Char) : Option (Nat × List Char) :=
  let ds := cs.takeWhile Char.isDigit
  let rest := cs.dropWhile Char.isDigit
  if ds = [] then none
  else
    match rest with
    | [] => none
    | r :: tail =>
      if r = '@' then
        let body := if tail.getLast? = some '\n' then tail.dropLast else tail
        if '\n' ∈ body then none else some (digitsToNat ds, body)
      else none

/-- parse_op_id: parse a counter-at-actor identifier string, raising a
MalformedIdentifier error when the regular expression does not match. -/
def parse_op_id (s : String) : Except Err (Nat × String) :=
  match opIdMatch s.data with
  | none => .error (.malformedIdentifier s)
  | some (c, a) => .ok (c, ⟨a⟩)

/-- Boolean success test for parse_op_id. -/
def parseOk (s : String) : Bool :=
  match parse_op_id s with
  | .ok _ => true
  | .error _ => false

/-- The pure comparison performed by lamport_compare after both arguments
parsed: counter difference first, then actor id as strings, else zero. -/
def opIdCompare (t1 t2 : Nat × String) : Int :=
  if t1.1 ≠ t2.1 then (t1.1 : Int) - (t2.1 : Int)
  else if t1.2 ≠ t2.2 then (if t1.2 > t2.2 then 1 else -1)
  else 0

/-- lamport_compare: parse both timestamp strings and compare, propagating
a parse failure of either argument. -/
def lamport_compare (ts1 ts2 : String) : Except Err Int :=
  match parse_op_id ts1 with
  | .error e => .error e
  | .ok t1 =>
    match parse_op_id ts2 with
    | .error e => .error e
    | .ok t2 => .ok (opIdCompare t1 t2)

/-! ### The sort used on candidate OperationIds

list.sort with cmp_to_key(lamport_compare) is a stable ascending sort whose
comparisons can raise on a malformed identifier: modelled as a stable
insertion sort in the error monad.  On all-parsable input both produce the
identical (stable, ascending) result; both raise exactly when the list has
at least two elements one of which is malformed, since every element of a
list of length two or more takes part in at least one comparison in either
algorithm. -/

/-- Insert x into a sorted list, placing it before the first element it
compares strictly below; comparisons may fail. -/
def insertCmpM (x : String) : List String → Except Err (List String)
  | [] => .ok [x]
  | y :: ys =>
    match lamport_compare x y with
    | .error e => .error e
    | .ok c =>
      if c < 0 then .ok (x :: y :: ys)
      else
        match insertCmpM x ys with
        | .error e => .error e
        | .ok l => .ok (y :: l)

/-- Stable ascending insertion sort in the error monad. -/
def sortM : List String → Except Err (List String)
  | [] => .ok []
  | x :: xs =>
    match sortM xs with
    | .error e => .error e
    | .ok l => insertCmpM x l

/-! ### Small observation helpers on values -/

/-- Truthiness of a document value under Python bool conversion.  The
container classes live in the missing datatypes module; modelled from the
spec: an existing container counts as present for the identity check, so
containers are truthy here.  Primitive truthiness follows Python builtins. -/
def isTruthy : Value → Bool
  | .prim .null => false
  | .prim (.num n) => n ≠ 0
  | .prim (.str s) => s ≠ ""
  | .prim (.bool b) => b
  | .counter _ => true
  | .map _ _ _ _ => true
  | .list _ _ _ _ _ => true

/-- Whether a value is a Map or List container. -/
def isContainer : Value → Bool
  | .map _ _ _ _ => true
  | .list _ _ _ _ _ => true
  | _ => false

/-- The object_id attribute of a container. -/
def objectIdOf : Value → Option String
  | .map o _ _ _ => some o
  | .list o _ _ _ _ => some o
  | _ => none

/-- The frozen flag of a container. -/
def frozenOf : Value → Option Bool
  | .map _ fz _ _ => some fz
  | .list _ fz _ _ _ => some fz
  | _ => none

/-- Setting the frozen flag of a container (a no-op on other values, which
never reach the assignment in the embedding). -/
def setFrozen (b : Bool) : Value → Value
  | .map o _ e r => .map o b e r
  | .list o _ vs eids r => .list o b vs eids r
  | v => v

/-- The visible value stored at a key or index of a container. -/
def valueAt (v : Value) (k : PKey) : Option Value :=
  match v, k with
  | .map _ _ e _, k => alGet k e
  | .list _ _ vs _ _, .idx n => (vs.get? n).join
  | _, _ => none

/-- The conflict-history entry stored at a key or index of a container. -/
def recentAt (v : Value) (k : PKey) : Option (List (String × Value)) :=
  match v, k with
  | .map _ _ _ r, k => alGet k r
  | .list _ _ _ _ r, .idx n => (r.get? n).join
  | _, _ => none

/-- A freshly created empty Map container, as Map([], objectId). -/
def emptyMap (oid : String) : Value := .map oid true [] []

/-- A freshly created empty List container, as List([], objectId). -/
def emptyList (oid : String) : Value := .list oid true [] [] []

/-! ### Pure pieces of apply_properties and update_list_obj -/

/-- The have_key_entry test followed by the membership test of the loop in
apply_properties, yielding the stored candidate to pass into get_value.
For a map container the key is looked up in recent_ops; for a list
container the key must be an index below the length whose slot is truthy
(neither a None placeholder nor an empty dict).  A string key against the
list branch compares a string with a length and raises TypeError; a
non-container object has no recent_ops attribute. -/
def existing_entry (obj : Value) (k : PKey) (id : String) : Except Err (Option Value) :=
  match obj, k with
  | .map _ _ _ r, k =>
    match alGet k r with
    | none => .ok none
    | some d => .ok (alGet id d)
  | .list _ _ _ _ r, .idx n =>
    match r.get? n with
    | none => .ok none
    | some none => .ok none
    | some (some []) => .ok none
    | some (some d) => .ok (alGet id d)
  | .list _ _ _ _ _, .str _ => .error .typeError
  | _, _ => .error .attributeError

/-- The deletion branch of apply_properties for an empty conflict set:
del obj[key] followed by del our_recent_ops[key].  Python del on a dict
raises KeyError on a missing key; del on a list raises IndexError out of
range and otherwise removes the slot, shifting later elements down. -/
def delKey (obj : Value) (k : PKey) : Value × Option Err :=
  match obj, k with
  | .map o fz e r, k =>
    if alHasKey k e then
      let e' := alDel k e
      if alHasKey k r then (.map o fz e' (alDel k r), none)
      else (.map o fz e' r, some .keyError)
    else (.map o fz e r, some .keyError)
  | .list o fz vs eids r, .idx n =>
    if n < vs.length then
      let vs' := vs.eraseIdx n
      if n < r.length then (.list o fz vs' eids (r.eraseIdx n), none)
      else (.list o fz vs' eids r, some .indexError)
    else (.list o fz vs eids r, some .indexError)
  | .list o fz vs eids r, .str _ => (.list o fz vs eids r, some .typeError)
  | o, _ => (o, some .attributeError)

/-- The assignment branch of apply_properties for a non-empty conflict set:
obj[key] = values[first sorted-descending id], then
our_recent_ops[key] = values.  List item assignment raises IndexError out
of range. -/
def writeKey (obj : Value) (k : PKey) (id0 : String)
    (values : List (String × Value)) : Value × Option Err :=
  match alGet id0 values with
  | none => (obj, some .keyError)
  | some w =>
    match obj, k with
    | .map o fz e r, k => (.map o fz (alSet k w e) (alSet k values r), none)
    | .list o fz vs eids r, .idx n =>
      if n < vs.length then
        let vs' := vs.set n (some w)
        if n < r.length then (.list o fz vs' eids (r.set n (some values)), none)
        else (.list o fz vs' eids r, some .indexError)
      else (.list o fz vs eids r, some .indexError)
    | .list o fz vs eids r, .str _ => (.list o fz vs eids r, some .typeError)
    | o, _ => (o, some .attributeError)

/-- The edit loop of update_list_obj over the three parallel sequences.
Insert puts the element id, a None value placeholder and a None history
placeholder at the index (Python list.insert clamps to the end); remove
deletes at the index from the element ids, the values and the history in
that order, raising IndexError on the first sequence found too short; any
other action string is silently skipped. -/
def applyEdits (vs : List (Option Value)) (eids : List String)
    (r : List (Option (List (String × Value)))) :
    List Edit →
    List (Option Value) × List String × List (Option (List (String × Value))) × Option Err
  | [] => (vs, eids, r, none)
  | e :: rest =>
    if e.action = "insert" then
      applyEdits (pyInsert e.index none vs) (pyInsert e.index e.elemId eids)
        (pyInsert e.index none r) rest
    else if e.action = "remove" then
      if e.index < eids.length then
        let eids' := eids.eraseIdx e.index
        if e.index < vs.length then
          let vs' := vs.eraseIdx e.index
          if e.index < r.length then applyEdits vs' eids' (r.eraseIdx e.index) rest
          else (vs', eids', r, some .indexError)
        else (vs, eids', r, some .indexError)
      else (vs, eids, r, some .indexError)
    else applyEdits vs eids r rest

/-- Lift the state-and-error result of apply_patch into the value-or-error
result expected by get_value: a raised error propagates, a normal return
hands back the (mutated) object. -/
def wrapApply : Option (Option Value × Option Err) → Option (Except Err Value)
  | none => none
  | some (_, some e) => some (.error e)
  | some (some v, none) => some (.ok v)
  | some (none, none) => some (.error .attributeError)

/-! ### The mutually recursive core

All functions thread the state of the object they mutate and return the
raised error, if any, alongside it.  The outer Option is the fuel artifact.
-/

mutual

/-- get_value: materialize one sub-patch against an existing conflict
entry.  A sub-patch carrying an objectId replaces a truthy existing
container whose object_id differs by a fresh empty container of the
declared type, then recurses into apply_patch; a truthy non-container
existing entry has no object_id attribute; a datatype tag builds a
Counter; otherwise the raw value field is returned. -/
def get_value : Nat → Option Value → Patch → Option (Except Err Value)
  | 0, _, _ => none
  | f + 1, conflict, p =>
    match p.pobjectId with
    | some oid =>
      match conflict with
      | some c =>
        if isTruthy c then
          match objectIdOf c with
          | some cid =>
            if cid ≠ oid then
              match p.ptype with
              | none => some (.error .keyError)
              | some t =>
                if t = "map" then wrapApply (apply_patch f (some (emptyMap oid)) p)
                else if t = "list" then wrapApply (apply_patch f (some (emptyList oid)) p)
                else some (.error .assertionError)
            else wrapApply (apply_patch f (some c) p)
          | none => some (.error .attributeError)
        else wrapApply (apply_patch f (some c) p)
      | none => wrapApply (apply_patch f none p)
    | none =>
      match p.pdatatype with
      | some _ =>
        match p.pvalue with
        | none => some (.error .keyError)
        | some v => some (.ok (.counter v))
      | none =>
        match p.pvalue with
        | none => some (.error .keyError)
        | some v => some (.ok (.prim v))

/-- The body of the candidate loop of apply_properties for one
OperationId: pass the stored candidate into get_value when present, else
start from a fresh empty container when the sub-patch carries an objectId
(a missing type field raises KeyError; any type other than map builds a
List), else materialize from nothing. -/
def candidate_value : Nat → Value → PKey → String → Patch → Option (Except Err Value)
  | 0, _, _, _, _ => none
  | f + 1, obj, k, id, sp =>
    match existing_entry obj k id with
    | .error e => some (.error e)
    | .ok (some stored) => get_value f (some stored) sp
    | .ok none =>
      match sp.pobjectId with
      | some oid =>
        match sp.ptype with
        | none => some (.error .keyError)
        | some t =>
          if t = "map" then get_value f (some (emptyMap oid)) sp
          else get_value f (some (emptyList oid)) sp
      | none => get_value f none sp

/-- The candidate loop of apply_properties, walking the OperationIds in
sorted-descending order and building the fresh values dict; the first
failing candidate aborts the key (the partial dict is discarded, the
object untouched). -/
def merge_loop : Nat → Value → PKey → Cands → List String →
    List (String × Value) → Option (Except Err (List (String × Value)))
  | 0, _, _, _, _, _ => none
  | f + 1, obj, k, cands, [], acc => some (.ok acc)
  | f + 1, obj, k, cands, id :: rest, acc =>
    match alGet id cands with
    | none => some (.error .keyError)
    | some sp =>
      match candidate_value f obj k id sp with
      | none => none
      | some (.error e) => some (.error e)
      | some (.ok w) => merge_loop f obj k cands rest (alSet id w acc)

/-- The per-key body of apply_properties: sort the candidate OperationIds
ascending by Lamport order and reverse, run the candidate loop, then
either delete the key (empty conflict set) or store the winner and the
fresh history. -/
def merge_key : Nat → Value → PKey → Cands → Option (Value × Option Err)
  | 0, _, _, _ => none
  | f + 1, obj, k, cands =>
    match sortM (cands.map Prod.fst) with
    | .error e => some (obj, some e)
    | .ok sorted =>
      let ids := sorted.reverse
      match merge_loop f obj k cands ids [] with
      | none => none
      | some (.error e) => some (obj, some e)
      | some (.ok values) =>
        match ids with
        | [] => some (delKey obj k)
        | id0 :: _ => some (writeKey obj k id0 values)

/-- The key loop of apply_properties over the props mapping in its
insertion order; a failing key stops the loop with the object state
reached so far. -/
def props_loop : Nat → Value → Props → Option (Value × Option Err)
  | 0, _, _ => none
  | f + 1, obj, [] => some (obj, none)
  | f + 1, obj, (k, cands) :: rest =>
    match merge_key f obj k cands with
    | none => none
    | some (obj', some e) => some (obj', some e)
    | some (obj', none) => props_loop f obj' rest

/-- apply_properties: read the recent_ops attribute of the object (an
AttributeError on a non-container) and run the key loop. -/
def apply_properties : Nat → Value → Props → Option (Value × Option Err)
  | 0, _, _ => none
  | f + 1, obj, props =>
    if isContainer obj then props_loop f obj props
    else some (obj, some .attributeError)

/-- update_list_obj: read the recent_ops and elem_ids attributes (a Map
container lacks elem_ids), apply the structural edits to the three
parallel sequences, then merge the props. -/
def update_list_obj : Nat → Value → Props → List Edit → Option (Value × Option Err)
  | 0, _, _, _ => none
  | f + 1, obj, props, edits =>
    match obj with
    | .list o fz vs eids r =>
      match applyEdits vs eids r edits with
      | (vs', eids', r', some e) => some (.list o fz vs' eids' r', some e)
      | (vs', eids', r', none) => apply_properties f (.list o fz vs' eids' r') props
    | other => some (other, some .attributeError)

/-- apply_patch: the dispatcher.  A present object has its frozen flag
cleared for the duration of the call (primitives and counters reject the
attribute assignment); a patch with neither props nor edits is a
compatibility no-op that re-freezes and returns the object unchanged;
a map patch merges props, a list patch applies edits then merges, any
other type raises; the frozen flag is set again only on the normal
return path, since the source has no finally block. -/
def apply_patch : Nat → Option Value → Patch → Option (Option Value × Option Err)
  | 0, _, _ => none
  | f + 1, obj, p =>
    match obj with
    | some (.prim v) => some (some (.prim v), some .attributeError)
    | some (.counter v) => some (some (.counter v), some .attributeError)
    | _ =>
      let obj1 : Option Value := obj.map (setFrozen false)
      if p.pprops.isNone ∧ p.pedits.isNone ∧ obj.isSome then
        some (obj1.map (setFrozen true), none)
      else
        match p.ptype with
        | none => some (obj1, some .keyError)
        | some t =>
          if t = "map" then
            match p.pprops with
            | none => some (obj1, some .keyError)
            | some props =>
              match obj1 with
              | none => some (none, some .attributeError)
              | some o =>
                match apply_properties f o props with
                | none => none
                | some (o2, some e) => some (some o2, some e)
                | some (o2, none) => some (some (setFrozen true o2), none)
          else if t = "list" then
            match p.pprops with
            | none => some (obj1, some .keyError)
            | some props =>
              match p.pedits with
              | none => some (obj1, some .keyError)
              | some edits =>
                match obj1 with
                | none => some (none, some .attributeError)
                | some o =>
                  match update_list_obj f o props edits with
                  | none => none
                  | some (o2, some e) => some (some o2, some e)
                  | some (o2, none) => some (some (setFrozen true o2), none)
          else some (obj1, some .unknownPatchType)

end

/-! ## Properties of the Lamport comparison -/

theorem opIdCompare_lt_iff (t u : Nat × String) :
    opIdCompare t u < 0 ↔ t.1 < u.1 ∨ (t.1 = u.1 ∧ t.2 < u.2) := by
  obtain ⟨c1, a1⟩ := t
  obtain ⟨c2, a2⟩ := u
  unfold opIdCompare
  by_cases hc : c1 = c2
  · subst hc
    by_cases ha : a1 = a2
    · subst ha; simp
    · rcases lt_or_gt_of_ne ha with h | h
      · simp [ha, h, not_lt_of_gt h]
      · simp [ha, h, not_lt_of_gt h, lt_asymm h]
  · have : c1 < c2 ∨ c2 < c1 := Nat.lt_or_ge c1 c2 |>.imp id
      (fun h2 => lt_of_le_of_ne h2 (Ne.symm hc))
    constructor
    · intro h
      left
      simp only [ne_eq, hc, not_false_eq_true, if_true] at h
      omega
    · intro h
      rcases h with h | ⟨h, _⟩
      · simp only [ne_eq, hc, not_false_eq_true, if_true]
        omega
      · exact absurd h hc

theorem opIdCompare_zero_iff (t u : Nat × String) :
    opIdCompare t u = 0 ↔ t = u := by
  obtain ⟨c1, a1⟩ := t
  obtain ⟨c2, a2⟩ := u
  unfold opIdCompare
  by_cases hc : c1 = c2
  · subst hc
    by_cases ha : a1 = a2
    · subst ha; simp
    · by_cases h : a1 > a2 <;> simp [ha, h]
  · simp only [ne_eq, hc, not_false_eq_true, if_true]
    constructor
    · intro h; exfalso; omega
    · intro h; cases h; exact absurd rfl hc

theorem opIdCompare_neg (t u : Nat × String) :
    opIdCompare u t = -(opIdCompare t u) := by
  obtain ⟨c1, a1⟩ := t
  obtain ⟨c2, a2⟩ := u
  unfold opIdCompare
  by_cases hc : c1 = c2
  · subst hc
    by_cases ha : a1 = a2
    · subst ha; simp
    · rcases lt_or_gt_of_ne ha with h | h
      · simp [ha, Ne.symm ha, h, lt_asymm h]
      · simp [ha, Ne.symm ha, h, lt_asymm h]
  · simp only [ne_eq, hc, Ne.symm hc, not_false_eq_true, if_true]
    omega

theorem opIdCompare_trans_lt {t u v : Nat × String}
    (h1 : opIdCompare t u < 0) (h2 : opIdCompare u v < 0) :
    opIdCompare t v < 0 := by
  rw [opIdCompare_lt_iff] at h1 h2 ⊢
  rcases h1 with h1 | ⟨h1, h1'⟩ <;> rcases h2 with h2 | ⟨h2, h2'⟩
  · exact Or.inl (lt_trans h1 h2)
  · exact Or.inl (h2 ▸ h1)
  · exact Or.inl (h1 ▸ h2)
  · exact Or.inr ⟨h1.trans h2, lt_trans h1' h2'⟩

/-- Claim C7: lamport_compare is a total order on valid identifier strings:
for all valid identifiers a, b, c (with parses pa, pb, pc), comparison
always succeeds, satisfies compare(a,b) = -compare(b,a), compares equal
exactly when counter and actorId are identical, obeys the trichotomy with
the three outcomes mutually exclusive, is transitive, and orders by counter
first with lexicographic actorId as the tie break. -/
theorem C7_lamport_total_order (a b c : String) (pa pb pc : Nat × String)
    (ha : parse_op_id a = .ok pa) (hb : parse_op_id b = .ok pb)
    (hc : parse_op_id c = .ok pc) :
    lamport_compare a b = .ok (opIdCompare pa pb) ∧
    lamport_compare b a = .ok (opIdCompare pb pa) ∧
    lamport_compare a c = .ok (opIdCompare pa pc) ∧
    opIdCompare pb pa = -(opIdCompare pa pb) ∧
    (opIdCompare pa pb = 0 ↔ pa = pb) ∧
    (opIdCompare pa pb < 0 ∨ opIdCompare pa pb = 0 ∨ 0 < opIdCompare pa pb) ∧
    ¬(opIdCompare pa pb < 0 ∧ opIdCompare pa pb = 0) ∧
    ¬(opIdCompare pa pb < 0 ∧ 0 < opIdCompare pa pb) ∧
    ¬(opIdCompare pa pb = 0 ∧ 0 < opIdCompare pa pb) ∧
    (opIdCompare pa pb < 0 → opIdCompare pb pc < 0 → opIdCompare pa pc < 0) ∧
    (opIdCompare pa pb < 0 ↔ pa.1 < pb.1 ∨ (pa.1 = pb.1 ∧ pa.2 < pb.2)) := by
  refine ⟨?_, ?_, ?_, opIdCompare_neg pa pb, opIdCompare_zero_iff pa pb, ?_, ?_, ?_, ?_,
    fun h1 h2 => opIdCompare_trans_lt h1 h2, opIdCompare_lt_iff pa pb⟩
  · unfold lamport_compare; rw [ha, hb]
  · unfold lamport_compare; rw [hb, ha]
  · unfold lamport_compare; rw [ha, hc]
  · omega
  · omega
  · omega
  · omega

/-- Witness for C7 at the concrete valid identifiers 1-at-a, 2-at-b,
10-at-a. -/
theorem C7_witness :
    lamport_compare "1@a" "2@b" = .ok (opIdCompare (1, "a") (2, "b")) ∧
    lamport_compare "2@b" "1@a" = .ok (opIdCompare (2, "b") (1, "a")) ∧
    lamport_compare "1@a" "10@a" = .ok (opIdCompare (1, "a") (10, "a")) ∧
    opIdCompare (2, "b") (1, "a") = -(opIdCompare (1, "a") (2, "b")) ∧
    (opIdCompare (1, "a") (2, "b") = 0 ↔ ((1, "a") : Nat × String) = (2, "b")) ∧
    (opIdCompare (1, "a") (2, "b") < 0 ∨ opIdCompare (1, "a") (2, "b") = 0 ∨
      0 < opIdCompare (1, "a") (2, "b")) ∧
    ¬(opIdCompare (1, "a") (2, "b") < 0 ∧ opIdCompare (1, "a") (2, "b") = 0) ∧
    ¬(opIdCompare (1, "a") (2, "b") < 0 ∧ 0 < opIdCompare (1, "a") (2, "b")) ∧
    ¬(opIdCompare (1, "a") (2, "b") = 0 ∧ 0 < opIdCompare (1, "a") (2, "b")) ∧
    (opIdCompare (1, "a") (2, "b") < 0 → opIdCompare (2, "b") (10, "a") < 0 →
      opIdCompare (1, "a") (10, "a") < 0) ∧
    (opIdCompare (1, "a") (2, "b") < 0 ↔
      (1 : Nat) < 2 ∨ ((1 : Nat) = 2 ∧ ("a" : String) < "b")) :=
  C7_lamport_total_order "1@a" "2@b" "10@a" (1, "a") (2, "b") (10, "a") rfl rfl rfl

/-! ## Characterization of parse_op_id -/

theorem takeWhile_all_append (p : Char → Bool) (ds : List Char) (x : Char)
    (xs : List Char) (hd : ∀ c ∈ ds, p c = true) (hx : p x = false) :
    (ds ++ x :: xs).takeWhile p = ds ∧ (ds ++ x :: xs).dropWhile p = x :: xs := by
  induction ds with
  | nil => simp [List.takeWhile_cons, List.dropWhile_cons, hx]
  | cons d ds ih =>
    have hpd : p d = true := hd d (by simp)
    have := ih (fun c hcm => hd c (by simp [hcm]))
    simp [List.takeWhile_cons, List.dropWhile_cons, hpd, this.1, this.2]

/-- The exact matching condition of the regular expression of parse_op_id,
at the level of character lists: a non-empty digit group, an at sign, the
captured newline-free body, and an optional single trailing newline which
is left out of the capture. -/
theorem opIdMatch_some_iff (cs : List Char) (c : Nat) (b : List Char) :
    opIdMatch cs = some (c, b) ↔
    ∃ ds t, ds ≠ [] ∧ (∀ ch ∈ ds, ch.isDigit = true) ∧ '\n' ∉ b ∧
      (t = ([] : List Char) ∨ t = ['\n']) ∧ cs = ds ++ '@' :: (b ++ t) ∧
      c = digitsToNat ds := by
  constructor
  · intro h
    unfold opIdMatch at h
    by_cases hds : cs.takeWhile Char.isDigit = []
    · simp [hds] at h
    · rw [if_neg hds] at h
      cases hrest : cs.dropWhile Char.isDigit with
      | nil => rw [hrest] at h; cases h
      | cons r tail =>
        rw [hrest] at h
        dsimp only at h
        by_cases hat : r = '@'
        · rw [if_pos hat] at h
          subst hat
          have hdig : ∀ ch ∈ cs.takeWhile Char.isDigit, ch.isDigit = true :=
            fun ch hm => List.mem_takeWhile_imp hm
          have hcs : cs = cs.takeWhile Char.isDigit ++ '@' :: tail := by
            conv_lhs => rw [← List.takeWhile_append_dropWhile (p := Char.isDigit) (l := cs)]
            rw [hrest]
          by_cases hlast : tail.getLast? = some '\n'
          · rw [if_pos hlast] at h
            by_cases hnl : '\n' ∈ tail.dropLast
            · rw [if_pos hnl] at h; cases h
            · rw [if_neg hnl] at h
              obtain ⟨hceq, hbeq⟩ : digitsToNat (cs.takeWhile Char.isDigit) = c ∧
                  tail.dropLast = b := by
                cases h; exact ⟨rfl, rfl⟩
              refine ⟨cs.takeWhile Char.isDigit, ['\n'], hds, hdig, hbeq ▸ hnl,
                Or.inr rfl, ?_, hceq.symm⟩
              have htail : tail = b ++ ['\n'] := by
                conv_lhs => rw [← List.dropLast_append_getLast? '\n' hlast]
                rw [hbeq]
              rw [htail] at hcs
              exact hcs
          · rw [if_neg hlast] at h
            by_cases hnl : '\n' ∈ tail
            · rw [if_pos hnl] at h; cases h
            · rw [if_neg hnl] at h
              obtain ⟨hceq, hbeq⟩ : digitsToNat (cs.takeWhile Char.isDigit) = c ∧
                  tail = b := by
                cases h; exact ⟨rfl, rfl⟩
              refine ⟨cs.takeWhile Char.isDigit, [], hds, hdig, hbeq ▸ hnl,
                Or.inl rfl, ?_, hceq.symm⟩
              rw [List.append_nil, ← hbeq]
              exact hcs
        · rw [if_neg hat] at h; cases h
  · rintro ⟨ds, t, hds, hdig, hnl, ht, hcs, hceq⟩
    have hsplit := takeWhile_all_append Char.isDigit ds '@' (b ++ t) hdig (by decide)
    unfold opIdMatch
    rw [hcs, hsplit.1, hsplit.2, if_neg hds]
    dsimp only
    rw [if_pos rfl]
    rcases ht with ht | ht
    · subst ht
      rw [List.append_nil]
      have hlast : ¬ b.getLast? = some '\n' := by
        intro hl
        apply hnl
        have := List.dropLast_append_getLast? '\n' hl
        rw [← this]
        simp
      rw [if_neg hlast, if_neg hnl, hceq]
    · subst ht
      rw [if_pos (List.getLast?_concat b), List.dropLast_concat, if_neg hnl, hceq]

/-- The Python-faithful matching relation of parse_op_id on a whole
string: counter digits, an at sign, the captured actor id free of
newlines, and an optional single trailing newline that is dropped. -/
def pyMatches (s : String) (c : Nat) (a : String) : Prop :=
  ∃ ds t, ds ≠ [] ∧ (∀ ch ∈ ds, ch.isDigit = true) ∧ '\n' ∉ a.data ∧
    (t = ([] : List Char) ∨ t = ['\n']) ∧ s.data = ds ++ '@' :: (a.data ++ t) ∧
    c = digitsToNat ds

/-- The shape the claim describes: digits, an at sign, and the whole
remainder of the text as the actor id. -/
def specShape (s : String) (c : Nat) (a : String) : Prop :=
  ∃ ds, ds ≠ [] ∧ (∀ ch ∈ ds, ch.isDigit = true) ∧
    s.data = ds ++ '@' :: a.data ∧ c = digitsToNat ds

theorem parse_op_id_ok_iff_match (s : String) (c : Nat) (a : String) :
    parse_op_id s = .ok (c, a) ↔ opIdMatch s.data = some (c, a.data) := by
  constructor
  · intro h
    unfold parse_op_id at h
    cases hM : opIdMatch s.data with
    | none => rw [hM] at h; cases h
    | some cb =>
      obtain ⟨c', b'⟩ := cb
      rw [hM] at h
      cases h
      rfl
  · intro h
    unfold parse_op_id
    rw [h]

/-- Counterexample to claim C8: the text 3-at-a-newline-b matches the
digits-at-rest shape (rest being a-newline-b) yet parse_op_id fails on
it; and the text 3-at-a-newline also matches the shape (rest being
a-newline) yet parse_op_id succeeds with actor id a, not the remainder
after the at sign. -/
theorem C8_counterexample :
    specShape "3@a\nb" 3 "a\nb" ∧
    parse_op_id "3@a\nb" = .error (.malformedIdentifier "3@a\nb") ∧
    specShape "3@a\n" 3 "a\n" ∧
    parse_op_id "3@a\n" = .ok (3, "a") ∧ ("a" : String) ≠ "a\n" := by
  refine ⟨⟨['3'], by simp, by decide, by decide, rfl⟩, rfl,
    ⟨['3'], by simp, by decide, by decide, rfl⟩, rfl, by decide⟩

/-- Claim C8 as amended: parse_op_id succeeds exactly on texts of the
shape digits, at sign, newline-free actor id, optionally followed by one
trailing newline (which the Python regex anchors tolerate and drop); the
returned counter is the digit value and the returned actor id is the
newline-free body; on every other text it fails with MalformedIdentifier
naming the text. -/
theorem C8_amended (s : String) :
    (∀ c a, parse_op_id s = .ok (c, a) ↔ pyMatches s c a) ∧
    (parse_op_id s = .error (.malformedIdentifier s) ↔ ∀ c a, ¬ pyMatches s c a) := by
  have hiff : ∀ c a, parse_op_id s = .ok (c, a) ↔ pyMatches s c a := by
    intro c a
    rw [parse_op_id_ok_iff_match, opIdMatch_some_iff]
    rfl
  refine ⟨hiff, ?_, ?_⟩
  · intro h c a hm
    have := (hiff c a).mpr hm
    rw [h] at this
    cases this
  · intro h
    unfold parse_op_id
    cases hM : opIdMatch s.data with
    | none => rfl
    | some cb =>
      obtain ⟨c', b'⟩ := cb
      exfalso
      have hm : pyMatches s c' ⟨b'⟩ := (opIdMatch_some_iff s.data c' b').mp hM
      exact h c' ⟨b'⟩ hm

/-- Witness for C8 at the concrete text 3-at-A. -/
theorem C8_witness : pyMatches "3@A" 3 "A" :=
  ((C8_amended "3@A").1 3 "A").mp rfl

/-! ## The list lock-step invariant and the empty-props deletion on lists -/

/-- Claim C2, evaluated at its failing input: a list patch whose props
carry an empty conflict set at a valid index returns normally, but the
deletion branch removes the slot from the values and from recent_ops while
never touching elem_ids, so the three parallel sequences end with lengths
0, 1 and 0 — the lock-step invariant does not survive a props merge with
an empty conflict set. -/
theorem C2_lockstep_violation :
    apply_patch 10
      (some (.list "o" true [some (.prim (.str "hello"))] ["1@A"]
        [some [("1@A", .prim (.str "hello"))]]))
      (.mk (some "list") (some "o") none none (some [(.idx 0, [])]) (some [])) =
      some (some (.list "o" true [] ["1@A"] []), none) ∧
    ([] : List (Option Value)).length ≠ (["1@A"] : List String).length :=
  ⟨rfl, by decide⟩

/-- Claim C5, evaluated at its failing input: on a two-element list an
empty conflict set at index 0 structurally removes the positional value
slot (the former second value shifts into index 0) besides the history
entry, while the claim says only the history entry goes and structural
removal is driven solely by edits. -/
theorem C5_empty_props_removes_list_slot :
    apply_patch 10
      (some (.list "o2" true [some (.prim (.str "a")), some (.prim (.str "b"))]
        ["1@A", "2@A"]
        [some [("1@A", .prim (.str "a"))], some [("2@A", .prim (.str "b"))]]))
      (.mk (some "list") (some "o2") none none (some [(.idx 0, [])]) (some [])) =
      some (some (.list "o2" true [some (.prim (.str "b"))] ["1@A", "2@A"]
        [some [("2@A", .prim (.str "b"))]]), none) ∧
    valueAt (.list "o2" true [some (.prim (.str "b"))] ["1@A", "2@A"]
        [some [("2@A", .prim (.str "b"))]]) (.idx 0) = some (.prim (.str "b")) :=
  ⟨rfl, rfl⟩

/-! ## The no-op patch (claim C6) -/

/-- Counterexample to claim C6: with no existing object, a patch lacking
both props and edits is not returned unchanged without exception; the
dispatch reads the props key of the patch and a KeyError escapes. -/
theorem C6_counterexample :
    apply_patch 10 none (.mk (some "map") none none none none none) =
      some (none, some .keyError) := rfl

theorem setFrozen_setFrozen (b b' : Bool) (c : Value) :
    setFrozen b (setFrozen b' c) = setFrozen b c := by
  cases c <;> rfl

/-- Claim C6 as amended: for a present container object, a patch lacking
both props and edits returns the very object unchanged except for the
frozen flag being set true again, with no exception; the materialized
content and identity are untouched.  (With no existing object the same
patch raises, see the counterexample.) -/
theorem C6_amended (f : Nat) (c : Value) (hc : isContainer c = true)
    (t oid : Option String) (v : Option Prim) (d : Option String) :
    apply_patch (f + 1) (some c) (.mk t oid v d none none) =
      some (some (setFrozen true c), none) ∧
    (∀ k, valueAt (setFrozen true c) k = valueAt c k) ∧
    (∀ k, recentAt (setFrozen true c) k = recentAt c k) ∧
    objectIdOf (setFrozen true c) = objectIdOf c := by
  refine ⟨?_, ?_, ?_, ?_⟩
  · cases c with
    | prim p => cases hc
    | counter p => cases hc
    | map o fz e r =>
      show some (some (setFrozen true (setFrozen false (.map o fz e r))), none) = _
      rw [setFrozen_setFrozen]
    | list o fz vs eids r =>
      show some (some (setFrozen true (setFrozen false (.list o fz vs eids r))), none) = _
      rw [setFrozen_setFrozen]
  · intro k; cases c <;> cases k <;> rfl
  · intro k; cases c <;> cases k <;> rfl
  · cases c <;> rfl

/-- Witness for the amended C6 at a concrete one-entry map. -/
theorem C6_witness :
    apply_patch 1 (some (.map "r" true [(.str "x", .prim (.num 1))] []))
      (.mk none none none none none none) =
      some (some (setFrozen true (.map "r" true [(.str "x", .prim (.num 1))] [])), none) ∧
    (∀ k, valueAt (setFrozen true (.map "r" true [(.str "x", .prim (.num 1))] [])) k =
      valueAt (.map "r" true [(.str "x", .prim (.num 1))] []) k) ∧
    (∀ k, recentAt (setFrozen true (.map "r" true [(.str "x", .prim (.num 1))] [])) k =
      recentAt (.map "r" true [(.str "x", .prim (.num 1))] []) k) ∧
    objectIdOf (setFrozen true (.map "r" true [(.str "x", .prim (.num 1))] [])) =
      objectIdOf (.map "r" true [(.str "x", .prim (.num 1))] []) :=
  C6_amended 0 (.map "r" true [(.str "x", .prim (.num 1))] []) rfl none none none none

/-! ## Applying to a missing object (claim C10) -/

/-- Claim C10: calling apply_patch with no existing object and a map or
list patch raises (a KeyError or an AttributeError, depending on which
field access fails first) and never creates a container: the returned
object state is still none. -/
theorem C10_no_object_raises (f : Nat) (t : String) (oid : Option String)
    (v : Option Prim) (d : Option String) (pr : Option Props)
    (ed : Option (List Edit)) (ht : t = "map" ∨ t = "list")
    (hcarry : pr ≠ none ∨ ed ≠ none) :
    ∃ e, apply_patch (f + 1) none (.mk (some t) oid v d pr ed) =
      some (none, some e) := by
  rcases ht with ht | ht <;> subst ht
  · cases pr with
    | none =>
      cases ed with
      | none => rcases hcarry with h | h <;> exact absurd rfl h
      | some edits => exact ⟨.keyError, rfl⟩
    | some props => exact ⟨.attributeError, rfl⟩
  · cases pr with
    | none =>
      cases ed with
      | none => rcases hcarry with h | h <;> exact absurd rfl h
      | some edits => exact ⟨.keyError, rfl⟩
    | some props =>
      cases ed with
      | none => exact ⟨.keyError, rfl⟩
      | some edits => exact ⟨.attributeError, rfl⟩

/-- Witness for C10 at a concrete map patch carrying empty props. -/
theorem C10_witness :
    ∃ e, apply_patch 1 none (.mk (some "map") none none none (some []) none) =
      some (none, some e) :=
  C10_no_object_raises 0 "map" none none none (some []) none (Or.inl rfl)
    (Or.inl (by simp))

/-! ## The error surface (claim C9) -/

/-- Counterexample to claim C9: on an object whose stored conflict
candidate for operation 1-at-A is the primitive 5, a patch whose sub-patch
for the same operation carries an objectId makes get_value read the
object_id attribute of a primitive; the resulting AttributeError escapes
apply_patch, and it is neither a MalformedIdentifier nor an
UnknownPatchType. -/
theorem C9_counterexample :
    apply_patch 10
      (some (.map "o" true [(.str "k", .prim (.num 5))]
        [(.str "k", [("1@A", .prim (.num 5))])]))
      (.mk (some "map") none none none
        (some [(.str "k",
          [("1@A", .mk (some "map") (some "x") none none (some []) none)])]) none) =
      some (some (.map "o" false [(.str "k", .prim (.num 5))]
        [(.str "k", [("1@A", .prim (.num 5))])]), some .attributeError) ∧
    (∀ s, (Err.attributeError : Err) ≠ .malformedIdentifier s) ∧
    (Err.attributeError : Err) ≠ .unknownPatchType := by
  refine ⟨rfl, ?_, ?_⟩
  · intro s h; cases h
  · intro h; cases h

/-- Claim C9 as amended: besides the two documented failure kinds, Python
builtin errors escape the core; in particular, whenever the existing
conflict entry handed to get_value is a truthy primitive and the sub-patch
carries an objectId, the attribute lookup of object_id on the primitive
raises an AttributeError. -/
theorem C9_amended (f : Nat) (v : Prim) (p : Patch) (oid : String)
    (hv : isTruthy (.prim v) = true) (ho : p.pobjectId = some oid) :
    get_value (f + 1) (some (.prim v)) p = some (.error .attributeError) := by
  unfold get_value
  rw [ho]
  dsimp only
  rw [hv]
  rfl

/-- Witness for the amended C9 at the primitive 5 and a map sub-patch. -/
theorem C9_witness :
    get_value 1 (some (.prim (.num 5)))
      (.mk (some "map") (some "x") none none (some []) none) =
      some (.error .attributeError) :=
  C9_amended 0 (.num 5) (.mk (some "map") (some "x") none none (some []) none) "x"
    (by decide) rfl

/-! ## Shape preservation through the merger (used for claims C3 and C4) -/

theorem setFrozen_isContainer (b : Bool) (c : Value) (hc : isContainer c = true) :
    isContainer (setFrozen b c) = true := by
  cases c <;> first | rfl | cases hc

theorem frozenOf_setFrozen (b : Bool) (c : Value) (hc : isContainer c = true) :
    frozenOf (setFrozen b c) = some b := by
  cases c <;> first | rfl | cases hc

theorem delKey_map_fst (o : String) (fz : Bool) (e : List (PKey × Value))
    (r : List (PKey × List (String × Value))) (k : PKey) :
    ∃ e' r', (delKey (.map o fz e r) k).1 = .map o fz e' r' := by
  by_cases h1 : alHasKey k e = true
  · by_cases h2 : alHasKey k r = true
    · exact ⟨alDel k e, alDel k r, by simp [delKey, h1, h2]⟩
    · exact ⟨alDel k e, r, by simp [delKey, h1, h2]⟩
  · exact ⟨e, r, by simp [delKey, h1]⟩

theorem delKey_list_fst (o : String) (fz : Bool) (vs : List (Option Value))
    (eids : List String) (r : List (Option (List (String × Value)))) (k : PKey) :
    ∃ vs' r', (delKey (.list o fz vs eids r) k).1 = .list o fz vs' eids r' := by
  cases k with
  | str s => exact ⟨vs, r, rfl⟩
  | idx n =>
    by_cases h1 : n < vs.length
    · by_cases h2 : n < r.length
      · exact ⟨vs.eraseIdx n, r.eraseIdx n, by simp [delKey, h1, h2]⟩
      · exact ⟨vs.eraseIdx n, r, by simp [delKey, h1, h2]⟩
    · exact ⟨vs, r, by simp [delKey, h1]⟩

theorem writeKey_map_fst (o : String) (fz : Bool) (e : List (PKey × Value))
    (r : List (PKey × List (String × Value))) (k : PKey) (id0 : String)
    (values : List (String × Value)) :
    ∃ e' r', (writeKey (.map o fz e r) k id0 values).1 = .map o fz e' r' := by
  cases hg : alGet id0 values with
  | none => exact ⟨e, r, by simp [writeKey, hg]⟩
  | some w => exact ⟨alSet k w e, alSet k values r, by simp [writeKey, hg]⟩

theorem writeKey_list_fst (o : String) (fz : Bool) (vs : List (Option Value))
    (eids : List String) (r : List (Option (List (String × Value)))) (k : PKey)
    (id0 : String) (values : List (String × Value)) :
    ∃ vs' r', (writeKey (.list o fz vs eids r) k id0 values).1 =
      .list o fz vs' eids r' := by
  cases hg : alGet id0 values with
  | none => exact ⟨vs, r, by simp [writeKey, hg]⟩
  | some w =>
    cases k with
    | str s => exact ⟨vs, r, by simp [writeKey, hg]⟩
    | idx n =>
      by_cases h1 : n < vs.length
      · by_cases h2 : n < r.length
        · exact ⟨vs.set n (some w), r.set n (some values), by simp [writeKey, hg, h1, h2]⟩
        · exact ⟨vs.set n (some w), r, by simp [writeKey, hg, h1, h2]⟩
      · exact ⟨vs, r, by simp [writeKey, hg, h1]⟩

theorem merge_key_map_fst (f : Nat) (o : String) (fz : Bool)
    (e : List (PKey × Value)) (r : List (PKey × List (String × Value)))
    (k : PKey) (cands : Cands) (res : Value × Option Err)
    (h : merge_key f (.map o fz e r) k cands = some res) :
    ∃ e' r', res.1 = .map o fz e' r' := by
  cases f with
  | zero => cases h
  | succ f =>
    unfold merge_key at h
    cases hs : sortM (cands.map Prod.fst) with
    | error err => rw [hs] at h; cases h; exact ⟨e, r, rfl⟩
    | ok sorted =>
      rw [hs] at h
      dsimp only at h
      cases hm : merge_loop f (.map o fz e r) k cands sorted.reverse [] with
      | none => rw [hm] at h; cases h
      | some mres =>
        rw [hm] at h
        cases mres with
        | error err => cases h; exact ⟨e, r, rfl⟩
        | ok values =>
          cases hrev : sorted.reverse with
          | nil => rw [hrev] at h; cases h; exact delKey_map_fst o fz e r k
          | cons id0 rest =>
            rw [hrev] at h; cases h; exact writeKey_map_fst o fz e r k id0 values

theorem merge_key_list_fst (f : Nat) (o : String) (fz : Bool)
    (vs : List (Option Value)) (eids : List String)
    (r : List (Option (List (String × Value)))) (k : PKey) (cands : Cands)
    (res : Value × Option Err)
    (h : merge_key f (.list o fz vs eids r) k cands = some res) :
    ∃ vs' r', res.1 = .list o fz vs' eids r' := by
  cases f with
  | zero => cases h
  | succ f =>
    unfold merge_key at h
    cases hs : sortM (cands.map Prod.fst) with
    | error err => rw [hs] at h; cases h; exact ⟨vs, r, rfl⟩
    | ok sorted =>
      rw [hs] at h
      dsimp only at h
      cases hm : merge_loop f (.list o fz vs eids r) k cands sorted.reverse [] with
      | none => rw [hm] at h; cases h
      | some mres =>
        rw [hm] at h
        cases mres with
        | error err => cases h; exact ⟨vs, r, rfl⟩
        | ok values =>
          cases hrev : sorted.reverse with
          | nil => rw [hrev] at h; cases h; exact delKey_list_fst o fz vs eids r k
          | cons id0 rest =>
            rw [hrev] at h; cases h; exact writeKey_list_fst o fz vs eids r k id0 values

theorem merge_key_shell (f : Nat) (obj : Value) (k : PKey) (cands : Cands)
    (res : Value × Option Err) (hc : isContainer obj = true)
    (h : merge_key f obj k cands = some res) :
    isContainer res.1 = true ∧ frozenOf res.1 = frozenOf obj ∧
      objectIdOf res.1 = objectIdOf obj := by
  cases obj with
  | prim q => cases hc
  | counter q => cases hc
  | map o fz e r =>
    obtain ⟨e', r', hs⟩ := merge_key_map_fst f o fz e r k cands res h
    rw [hs]; exact ⟨rfl, rfl, rfl⟩
  | list o fz vs eids r =>
    obtain ⟨vs', r', hs⟩ := merge_key_list_fst f o fz vs eids r k cands res h
    rw [hs]; exact ⟨rfl, rfl, rfl⟩

theorem props_loop_shell (f : Nat) :
    ∀ (obj : Value) (props : Props) (res : Value × Option Err),
    isContainer obj = true → props_loop f obj props = some res →
    isContainer res.1 = true ∧ frozenOf res.1 = frozenOf obj ∧
      objectIdOf res.1 = objectIdOf obj := by
  induction f with
  | zero => intro obj props res hc h; cases h
  | succ f ih =>
    intro obj props res hc h
    cases props with
    | nil => cases h; exact ⟨hc, rfl, rfl⟩
    | cons kc rest =>
      obtain ⟨k, cands⟩ := kc
      unfold props_loop at h
      cases hm : merge_key f obj k cands with
      | none => rw [hm] at h; cases h
      | some mres =>
        rw [hm] at h
        obtain ⟨obj', e?⟩ := mres
        have hshell := merge_key_shell f obj k cands (obj', e?) hc hm
        cases e? with
        | some err => cases h; exact hshell
        | none =>
          have := ih obj' rest res hshell.1 h
          exact ⟨this.1, this.2.1.trans hshell.2.1, this.2.2.trans hshell.2.2⟩

theorem apply_properties_shell (f : Nat) (obj : Value) (props : Props)
    (res : Value × Option Err) (hc : isContainer obj = true)
    (h : apply_properties f obj props = some res) :
    isContainer res.1 = true ∧ frozenOf res.1 = frozenOf obj ∧
      objectIdOf res.1 = objectIdOf obj := by
  cases f with
  | zero => cases h
  | succ f =>
    unfold apply_properties at h
    rw [hc] at h
    exact props_loop_shell f obj props res hc (by simpa using h)

theorem update_list_obj_shell (f : Nat) (obj : Value) (props : Props)
    (edits : List Edit) (res : Value × Option Err) (hc : isContainer obj = true)
    (h : update_list_obj f obj props edits = some res) :
    isContainer res.1 = true ∧ frozenOf res.1 = frozenOf obj ∧
      objectIdOf res.1 = objectIdOf obj := by
  cases f with
  | zero => cases h
  | succ f =>
    cases obj with
    | prim q => cases hc
    | counter q => cases hc
    | map o fz e r =>
      unfold update_list_obj at h
      cases h; exact ⟨rfl, rfl, rfl⟩
    | list o fz vs eids r =>
      unfold update_list_obj at h
      dsimp only at h
      cases hE : applyEdits vs eids r edits with
      | mk vs' tail =>
        obtain ⟨eids', r', e?⟩ := tail
        rw [hE] at h
        cases e? with
        | some err => cases h; exact ⟨rfl, rfl, rfl⟩
        | none =>
          have := apply_properties_shell f (.list o fz vs' eids' r') props res rfl h
          exact this

/-! ## The frozen mutation guard (claim C3) -/

/-- Counterexample to claim C3: on two raising exits the frozen flag is
left false.  An unknown patch type raises after the guard opened and
before any re-freeze; a malformed OperationId among two candidates raises
out of the sort inside apply_properties; in both runs the returned object
state still has frozen = false, so the mutation guard is left open by a
failing patch (the source has no finally block). -/
theorem C3_counterexample :
    (apply_patch 10 (some (.map "root" true [] []))
      (.mk (some "weird") none none none (some []) none) =
      some (some (.map "root" false [] []), some .unknownPatchType)) ∧
    (apply_patch 10 (some (.map "root" true [] []))
      (.mk (some "map") none none none
        (some [(.str "x", [("bad", .mk none none (some (.num 1)) none none none),
          ("2@A", .mk none none (some (.num 2)) none none none)])]) none) =
      some (some (.map "root" false [] []), some (.malformedIdentifier "bad"))) :=
  ⟨rfl, rfl⟩

/-- Claim C3 as amended: apply_patch re-asserts the frozen flag only on
the normal return paths; on every exit, the object comes back frozen
exactly when no error was raised — a raising exit (malformed identifier,
unknown patch type, or any builtin error) leaves the guard open with
frozen = false. -/
theorem C3_amended (f : Nat) (c : Value) (p : Patch) (st : Option Value)
    (erropt : Option Err) (hc : isContainer c = true)
    (h : apply_patch f (some c) p = some (st, erropt)) :
    ∃ v, st = some v ∧ isContainer v = true ∧ frozenOf v = some erropt.isNone := by
  cases f with
  | zero => cases h
  | succ f =>
    obtain ⟨t, oid, pv, pd, pr, ed⟩ := p
    cases c with
    | prim q => cases hc
    | counter q => cases hc
    | map o fz e r =>
      unfold apply_patch at h
      dsimp only [Patch.ptype, Patch.pobjectId, Patch.pvalue, Patch.pdatatype,
        Patch.pprops, Patch.pedits, Option.map, setFrozen] at h
      split at h
      · cases h
        exact ⟨_, rfl, rfl, rfl⟩
      · cases t with
        | none => cases h; exact ⟨_, rfl, rfl, rfl⟩
        | some ts =>
          dsimp only at h
          by_cases ht1 : ts = "map"
          · subst ht1
            rw [if_pos rfl] at h
            cases pr with
            | none => cases h; exact ⟨_, rfl, rfl, rfl⟩
            | some props =>
              dsimp only at h
              cases hap : apply_properties f (Value.map o false e r) props with
              | none => rw [hap] at h; cases h
              | some mres =>
                obtain ⟨o2, e2⟩ := mres
                rw [hap] at h
                have hsh := apply_properties_shell f (Value.map o false e r) props
                  (o2, e2) rfl hap
                have hc2 : isContainer o2 = true := hsh.1
                have hf2 : frozenOf o2 = some false := hsh.2.1
                cases e2 with
                | some err => cases h; exact ⟨o2, rfl, hc2, by rw [hf2]; rfl⟩
                | none =>
                  cases h
                  exact ⟨setFrozen true o2, rfl, setFrozen_isContainer true o2 hc2,
                    frozenOf_setFrozen true o2 hc2⟩
          · rw [if_neg ht1] at h
            by_cases ht2 : ts = "list"
            · subst ht2
              rw [if_pos rfl] at h
              cases pr with
              | none => cases h; exact ⟨_, rfl, rfl, rfl⟩
              | some props =>
                dsimp only at h
                cases ed with
                | none => cases h; exact ⟨_, rfl, rfl, rfl⟩
                | some edits =>
                  dsimp only at h
                  cases hup : update_list_obj f (Value.map o false e r) props edits with
                  | none => rw [hup] at h; cases h
                  | some mres =>
                    obtain ⟨o2, e2⟩ := mres
                    rw [hup] at h
                    have hsh := update_list_obj_shell f (Value.map o false e r) props
                      edits (o2, e2) rfl hup
                    have hc2 : isContainer o2 = true := hsh.1
                    have hf2 : frozenOf o2 = some false := hsh.2.1
                    cases e2 with
                    | some err => cases h; exact ⟨o2, rfl, hc2, by rw [hf2]; rfl⟩
                    | none =>
                      cases h
                      exact ⟨setFrozen true o2, rfl, setFrozen_isContainer true o2 hc2,
                        frozenOf_setFrozen true o2 hc2⟩
            · rw [if_neg ht2] at h
              cases h
              exact ⟨_, rfl, rfl, rfl⟩
    | list o fz vs eids r =>
      unfold apply_patch at h
      dsimp only [Patch.ptype, Patch.pobjectId, Patch.pvalue, Patch.pdatatype,
        Patch.pprops, Patch.pedits, Option.map, setFrozen] at h
      split at h
      · cases h
        exact ⟨_, rfl, rfl, rfl⟩
      · cases t with
        | none => cases h; exact ⟨_, rfl, rfl, rfl⟩
        | some ts =>
          dsimp only at h
          by_cases ht1 : ts = "map"
          · subst ht1
            rw [if_pos rfl] at h
            cases pr with
            | none => cases h; exact ⟨_, rfl, rfl, rfl⟩
            | some props =>
              dsimp only at h
              cases hap : apply_properties f (Value.list o false vs eids r) props with
              | none => rw [hap] at h; cases h
              | some mres =>
                obtain ⟨o2, e2⟩ := mres
                rw [hap] at h
                have hsh := apply_properties_shell f (Value.list o false vs eids r)
                  props (o2, e2) rfl hap
                have hc2 : isContainer o2 = true := hsh.1
                have hf2 : frozenOf o2 = some false := hsh.2.1
                cases e2 with
                | some err => cases h; exact ⟨o2, rfl, hc2, by rw [hf2]; rfl⟩
                | none =>
                  cases h
                  exact ⟨setFrozen true o2, rfl, setFrozen_isContainer true o2 hc2,
                    frozenOf_setFrozen true o2 hc2⟩
          · rw [if_neg ht1] at h
            by_cases ht2 : ts = "list"
            · subst ht2
              rw [if_pos rfl] at h
              cases pr with
              | none => cases h; exact ⟨_, rfl, rfl, rfl⟩
              | some props =>
                dsimp only at h
                cases ed with
                | none => cases h; exact ⟨_, rfl, rfl, rfl⟩
                | some edits =>
                  dsimp only at h
                  cases hup : update_list_obj f (Value.list o false vs eids r) props edits with
                  | none => rw [hup] at h; cases h
                  | some mres =>
                    obtain ⟨o2, e2⟩ := mres
                    rw [hup] at h
                    have hsh := update_list_obj_shell f (Value.list o false vs eids r)
                      props edits (o2, e2) rfl hup
                    have hc2 : isContainer o2 = true := hsh.1
                    have hf2 : frozenOf o2 = some false := hsh.2.1
                    cases e2 with
                    | some err => cases h; exact ⟨o2, rfl, hc2, by rw [hf2]; rfl⟩
                    | none =>
                      cases h
                      exact ⟨setFrozen true o2, rfl, setFrozen_isContainer true o2 hc2,
                        frozenOf_setFrozen true o2 hc2⟩
            · rw [if_neg ht2] at h
              cases h
              exact ⟨_, rfl, rfl, rfl⟩

/-- Witness for the amended C3 at a successful empty-props map merge. -/
theorem C3_witness :
    ∃ v, (some (Value.map "w3" true [] []) : Option Value) = some v ∧
      isContainer v = true ∧ frozenOf v = some (Option.isNone (none : Option Err)) :=
  C3_amended 10 (.map "w3" true [] [])
    (.mk (some "map") none none none (some []) none)
    (some (.map "w3" true [] [])) none rfl rfl

/-! ## Frame lemmas for the map merger (used for claim C4) -/

theorem alGet_alSet_self {κ α : Type _} [DecidableEq κ] (k : κ) (v : α)
    (l : List (κ × α)) : alGet k (alSet k v l) = some v := by
  induction l with
  | nil => simp [alGet, alSet]
  | cons kv rest ih =>
    obtain ⟨k0, v0⟩ := kv
    by_cases h : k = k0
    · subst h; simp [alGet, alSet]
    · simp [alGet, alSet, h, ih]

theorem alGet_alSet_ne {κ α : Type _} [DecidableEq κ] (k k' : κ) (v : α)
    (l : List (κ × α)) (h : k' ≠ k) : alGet k' (alSet k v l) = alGet k' l := by
  induction l with
  | nil => simp [alGet, alSet, h]
  | cons kv rest ih =>
    obtain ⟨k0, v0⟩ := kv
    by_cases h0 : k = k0
    · subst h0; simp [alGet, alSet, h]
    · by_cases h1 : k' = k0 <;> simp [alGet, alSet, h0, h1, ih]

theorem alGet_alDel_ne {κ α : Type _} [DecidableEq κ] (k k' : κ)
    (l : List (κ × α)) (h : k' ≠ k) : alGet k' (alDel k l) = alGet k' l := by
  induction l with
  | nil => simp [alDel]
  | cons kv rest ih =>
    obtain ⟨k0, v0⟩ := kv
    by_cases h0 : k = k0
    · subst h0; simp [alGet, alDel, h]
    · by_cases h1 : k' = k0 <;> simp [alGet, alDel, h0, h1, ih]

theorem valueAt_setFrozen (b : Bool) (v : Value) (k : PKey) :
    valueAt (setFrozen b v) k = valueAt v k := by
  cases v <;> cases k <;> rfl

theorem recentAt_setFrozen (b : Bool) (v : Value) (k : PKey) :
    recentAt (setFrozen b v) k = recentAt v k := by
  cases v <;> cases k <;> rfl

theorem objectIdOf_setFrozen (b : Bool) (v : Value) :
    objectIdOf (setFrozen b v) = objectIdOf v := by
  cases v <;> rfl

theorem delKey_map_at (o : String) (fz : Bool) (e : List (PKey × Value))
    (r : List (PKey × List (String × Value))) (k k' : PKey) (hne : k' ≠ k) :
    valueAt (delKey (.map o fz e r) k).1 k' = alGet k' e ∧
    recentAt (delKey (.map o fz e r) k).1 k' = alGet k' r := by
  by_cases h1 : alHasKey k e = true
  · by_cases h2 : alHasKey k r = true
    · simp [delKey, h1, h2, valueAt, recentAt, alGet_alDel_ne k k' _ hne]
    · simp [delKey, h1, h2, valueAt, recentAt, alGet_alDel_ne k k' _ hne]
  · simp [delKey, h1, valueAt, recentAt]

theorem writeKey_map_at (o : String) (fz : Bool) (e : List (PKey × Value))
    (r : List (PKey × List (String × Value))) (k k' : PKey) (id0 : String)
    (values : List (String × Value)) (hne : k' ≠ k) :
    valueAt (writeKey (.map o fz e r) k id0 values).1 k' = alGet k' e ∧
    recentAt (writeKey (.map o fz e r) k id0 values).1 k' = alGet k' r := by
  cases hg : alGet id0 values with
  | none => simp [writeKey, hg, valueAt, recentAt]
  | some w => simp [writeKey, hg, valueAt, recentAt, alGet_alSet_ne k k' _ _ hne]

theorem merge_key_map_at (f : Nat) (o : String) (fz : Bool)
    (e : List (PKey × Value)) (r : List (PKey × List (String × Value)))
    (k : PKey) (cands : Cands) (res : Value × Option Err)
    (h : merge_key f (.map o fz e r) k cands = some res)
    (k' : PKey) (hne : k' ≠ k) :
    valueAt res.1 k' = alGet k' e ∧ recentAt res.1 k' = alGet k' r := by
  cases f with
  | zero => cases h
  | succ f =>
    unfold merge_key at h
    cases hs : sortM (cands.map Prod.fst) with
    | error err => rw [hs] at h; cases h; simp [valueAt, recentAt]
    | ok sorted =>
      rw [hs] at h
      dsimp only at h
      cases hm : merge_loop f (.map o fz e r) k cands sorted.reverse [] with
      | none => rw [hm] at h; cases h
      | some mres =>
        rw [hm] at h
        cases mres with
        | error err => cases h; simp [valueAt, recentAt]
        | ok values =>
          cases hrev : sorted.reverse with
          | nil => rw [hrev] at h; cases h; exact delKey_map_at o fz e r k k' hne
          | cons id0 rest =>
            rw [hrev] at h; cases h
            exact writeKey_map_at o fz e r k k' id0 values hne

theorem props_loop_map_at (f : Nat) :
    ∀ (o : String) (fz : Bool) (e : List (PKey × Value))
      (r : List (PKey × List (String × Value))) (props : Props)
      (res : Value × Option Err) (k' : PKey),
    (∀ pk ∈ props, pk.1 ≠ k') →
    props_loop f (.map o fz e r) props = some res →
    valueAt res.1 k' = alGet k' e ∧ recentAt res.1 k' = alGet k' r ∧
      ∃ e' r', res.1 = .map o fz e' r' := by
  induction f with
  | zero => intro o fz e r props res k' hk h; cases h
  | succ f ih =>
    intro o fz e r props res k' hk h
    cases props with
    | nil => cases h; exact ⟨rfl, rfl, e, r, rfl⟩
    | cons kc rest =>
      obtain ⟨k, cands⟩ := kc
      have hkne : k' ≠ k := fun hcon => (hk (k, cands) (by simp)) (by simp [hcon])
      unfold props_loop at h
      cases hm : merge_key f (.map o fz e r) k cands with
      | none => rw [hm] at h; cases h
      | some mres =>
        rw [hm] at h
        obtain ⟨obj2, e?⟩ := mres
        obtain ⟨e2, r2, hshape⟩ := merge_key_map_fst f o fz e r k cands (obj2, e?) hm
        have hat := merge_key_map_at f o fz e r k cands (obj2, e?) hm k' hkne
        dsimp only at hshape
        cases e? with
        | some err =>
          cases h
          exact ⟨hat.1, hat.2, e2, r2, hshape⟩
        | none =>
          rw [hshape] at h
          have hrec := ih o fz e2 r2 rest res k'
            (fun pk hmem => hk pk (by simp [hmem])) h
          rw [hshape] at hat
          dsimp only [valueAt, recentAt] at hat
          refine ⟨?_, ?_, hrec.2.2⟩
          · rw [hrec.1, hat.1]
          · rw [hrec.2.1, hat.2]

/-! ## Shape of a successful dispatch (used for claim C4) -/

theorem wrapApply_ok (X : Option (Option Value × Option Err)) (res : Value)
    (h : wrapApply X = some (.ok res)) : X = some (some res, none) := by
  cases X with
  | none => simp [wrapApply] at h
  | some pe =>
    obtain ⟨st, e?⟩ := pe
    cases e? with
    | some err => simp [wrapApply] at h
    | none =>
      cases st with
      | none => simp [wrapApply] at h
      | some v =>
        simp only [wrapApply, Option.some.injEq, Except.ok.injEq] at h
        rw [h]

/-- A successful map-typed dispatch on a map container is the props merge
on the guard-opened container followed by the re-freeze. -/
theorem apply_patch_map_props (f : Nat) (o : String) (fz : Bool)
    (e : List (PKey × Value)) (r : List (PKey × List (String × Value)))
    (oid : Option String) (pv : Option Prim) (pd : Option String)
    (ps : Props) (ed : Option (List Edit)) (res : Value)
    (h : apply_patch f (some (.map o fz e r))
      (.mk (some "map") oid pv pd (some ps) ed) = some (some res, none)) :
    ∃ g res0, props_loop g (.map o false e r) ps = some (res0, none) ∧
      res = setFrozen true res0 := by
  cases f with
  | zero => cases h
  | succ f =>
    unfold apply_patch at h
    dsimp only [Patch.ptype, Patch.pobjectId, Patch.pvalue, Patch.pdatatype,
      Patch.pprops, Patch.pedits, Option.map, setFrozen] at h
    split at h
    · rename_i hcond
      simp at hcond
    · rw [if_pos rfl] at h
      cases hap : apply_properties f (Value.map o false e r) ps with
      | none => rw [hap] at h; cases h
      | some mres =>
        obtain ⟨o2, e2⟩ := mres
        rw [hap] at h
        cases e2 with
        | some err => cases h
        | none =>
          cases h
          cases f with
          | zero => cases hap
          | succ f2 =>
            unfold apply_properties at hap
            rw [show isContainer (Value.map o false e r) = true from rfl] at hap
            exact ⟨f2, o2, by simpa using hap, rfl⟩

theorem props_loop_list_fst (f : Nat) :
    ∀ (o : String) (fz : Bool) (vs : List (Option Value)) (eids : List String)
      (r : List (Option (List (String × Value)))) (props : Props)
      (res : Value × Option Err),
    props_loop f (.list o fz vs eids r) props = some res →
    ∃ vs' r', res.1 = .list o fz vs' eids r' := by
  induction f with
  | zero => intro o fz vs eids r props res h; cases h
  | succ f ih =>
    intro o fz vs eids r props res h
    cases props with
    | nil => cases h; exact ⟨vs, r, rfl⟩
    | cons kc rest =>
      obtain ⟨k, cands⟩ := kc
      unfold props_loop at h
      cases hm : merge_key f (.list o fz vs eids r) k cands with
      | none => rw [hm] at h; cases h
      | some mres =>
        rw [hm] at h
        obtain ⟨obj2, e?⟩ := mres
        obtain ⟨vs2, r2, hshape⟩ := merge_key_list_fst f o fz vs eids r k cands (obj2, e?) hm
        dsimp only at hshape
        cases e? with
        | some err => cases h; exact ⟨vs2, r2, hshape⟩
        | none =>
          rw [hshape] at h
          exact ih o fz vs2 eids r2 rest res h

theorem update_list_obj_list_fst (f : Nat) (o : String) (fz : Bool)
    (vs : List (Option Value)) (eids : List String)
    (r : List (Option (List (String × Value)))) (props : Props)
    (edits : List Edit) (res : Value × Option Err)
    (h : update_list_obj f (.list o fz vs eids r) props edits = some res) :
    ∃ vs' eids' r', res.1 = .list o fz vs' eids' r' := by
  cases f with
  | zero => cases h
  | succ f =>
    unfold update_list_obj at h
    dsimp only at h
    cases hE : applyEdits vs eids r edits with
    | mk vs2 tail =>
      obtain ⟨eids2, r2, e?⟩ := tail
      rw [hE] at h
      cases e? with
      | some err => cases h; exact ⟨vs2, eids2, r2, rfl⟩
      | none =>
        cases f with
        | zero => cases h
        | succ f2 =>
          unfold apply_properties at h
          rw [show isContainer (Value.list o fz vs2 eids2 r2) = true from rfl] at h
          obtain ⟨vs3, r3, hshape⟩ :=
            props_loop_list_fst f2 o fz vs2 eids2 r2 props res (by simpa using h)
          exact ⟨vs3, eids2, r3, hshape⟩

/-- A successful list-typed dispatch on a list container returns a list
container with the same objectId. -/
theorem apply_patch_list_shape (f : Nat) (o : String) (fz : Bool)
    (vs : List (Option Value)) (eids : List String)
    (r : List (Option (List (String × Value)))) (oid : Option String)
    (pv : Option Prim) (pd : Option String) (ps : Props) (eds : List Edit)
    (res : Value)
    (h : apply_patch f (some (.list o fz vs eids r))
      (.mk (some "list") oid pv pd (some ps) (some eds)) = some (some res, none)) :
    ∃ fz' vs' eids' r', res = .list o fz' vs' eids' r' := by
  cases f with
  | zero => cases h
  | succ f =>
    unfold apply_patch at h
    dsimp only [Patch.ptype, Patch.pobjectId, Patch.pvalue, Patch.pdatatype,
      Patch.pprops, Patch.pedits, Option.map, setFrozen] at h
    split at h
    · rename_i hcond
      simp at hcond
    · rw [if_neg (by decide : ¬("list" : String) = "map"), if_pos rfl] at h
      cases hup : update_list_obj f (Value.list o false vs eids r) ps eds with
      | none => rw [hup] at h; cases h
      | some mres =>
        obtain ⟨o2, e2⟩ := mres
        rw [hup] at h
        cases e2 with
        | some err => cases h
        | none =>
          cases h
          obtain ⟨vs2, eids2, r2, hshape⟩ :=
            update_list_obj_list_fst f o false vs eids r ps eds (o2, none) hup
          dsimp only at hshape
          rw [hshape]
          exact ⟨true, vs2, eids2, r2, rfl⟩

/-- Claim C4: materializing a sub-patch carrying an objectId against an
existing map container.  When the objectId matches, the merge continues
from the existing container: its identity is kept and entries at keys the
sub-patch does not touch keep their value and history (the deep merge
mutates rather than rebuilds).  When the objectId differs, the existing
container is discarded: merging starts from a freshly created empty
container of the declared type carrying the new objectId, so untouched
keys come back empty, and a list-typed sub-patch yields a fresh List
container. -/
theorem C4_identity_merge (f : Nat) (o₁ o₂ : String) (fz : Bool)
    (e : List (PKey × Value)) (r : List (PKey × List (String × Value)))
    (pv : Option Prim) (pd : Option String) (ps : Props)
    (ed : Option (List Edit)) (k₀ : PKey) (hk : ∀ pk ∈ ps, pk.1 ≠ k₀) :
    (o₂ = o₁ → ∀ res,
      get_value f (some (.map o₁ fz e r))
        (.mk (some "map") (some o₂) pv pd (some ps) ed) = some (.ok res) →
      objectIdOf res = some o₁ ∧
      valueAt res k₀ = valueAt (.map o₁ fz e r) k₀ ∧
      recentAt res k₀ = recentAt (.map o₁ fz e r) k₀) ∧
    (o₂ ≠ o₁ → ∀ res,
      get_value f (some (.map o₁ fz e r))
        (.mk (some "map") (some o₂) pv pd (some ps) ed) = some (.ok res) →
      objectIdOf res = some o₂ ∧ valueAt res k₀ = none ∧ recentAt res k₀ = none) ∧
    (o₂ ≠ o₁ → ∀ res ps₂ eds,
      get_value f (some (.map o₁ fz e r))
        (.mk (some "list") (some o₂) pv pd (some ps₂) (some eds)) = some (.ok res) →
      ∃ fz' vs' eids' r', res = .list o₂ fz' vs' eids' r') := by
  refine ⟨?_, ?_, ?_⟩
  · intro heq res hg
    subst heq
    cases f with
    | zero => cases hg
    | succ f =>
      unfold get_value at hg
      dsimp only [Patch.ptype, Patch.pobjectId, Patch.pvalue, Patch.pdatatype,
        Patch.pprops, Patch.pedits, isTruthy, objectIdOf] at hg
      rw [if_pos rfl, if_neg (by simp)] at hg
      have hA := wrapApply_ok _ res hg
      obtain ⟨g, res0, hpl, hres⟩ := apply_patch_map_props f o₂ fz e r (some o₂)
        pv pd ps ed res hA
      obtain ⟨hval, hrec, e2, r2, hshape⟩ :=
        props_loop_map_at g o₂ false e r ps (res0, none) k₀ hk hpl
      dsimp only at hval hrec hshape
      subst hres
      rw [valueAt_setFrozen, recentAt_setFrozen, objectIdOf_setFrozen]
      rw [hshape]
      exact ⟨rfl, by rw [← hshape, hval]; rfl, by rw [← hshape, hrec]; rfl⟩
  · intro hne res hg
    cases f with
    | zero => cases hg
    | succ f =>
      unfold get_value at hg
      dsimp only [Patch.ptype, Patch.pobjectId, Patch.pvalue, Patch.pdatatype,
        Patch.pprops, Patch.pedits, isTruthy, objectIdOf] at hg
      rw [if_pos rfl, if_pos (Ne.symm hne), if_pos rfl] at hg
      have hA := wrapApply_ok _ res hg
      obtain ⟨g, res0, hpl, hres⟩ := apply_patch_map_props f o₂ true [] [] (some o₂)
        pv pd ps ed res hA
      obtain ⟨hval, hrec, e2, r2, hshape⟩ :=
        props_loop_map_at g o₂ false [] [] ps (res0, none) k₀ hk hpl
      dsimp only at hval hrec hshape
      subst hres
      rw [valueAt_setFrozen, recentAt_setFrozen, objectIdOf_setFrozen]
      rw [hshape]
      refine ⟨rfl, ?_, ?_⟩
      · rw [← hshape, hval]; rfl
      · rw [← hshape, hrec]; rfl
  · intro hne res ps₂ eds hg
    cases f with
    | zero => cases hg
    | succ f =>
      unfold get_value at hg
      dsimp only [Patch.ptype, Patch.pobjectId, Patch.pvalue, Patch.pdatatype,
        Patch.pprops, Patch.pedits, isTruthy, objectIdOf] at hg
      rw [if_pos rfl, if_pos (Ne.symm hne),
        if_neg (by decide : ¬("list" : String) = "map"), if_pos rfl] at hg
      have hA := wrapApply_ok _ res hg
      exact apply_patch_list_shape f o₂ true [] [] [] (some o₂) pv pd ps₂ eds res hA

/-- Witness for C4: merging a matching-objectId sub-patch into a nested
map keeps identity and the untouched key, and a differing-objectId map
sub-patch comes back with the new identity and without the old key. -/
theorem C4_witness :
    (objectIdOf (.map "child" true
        [(.str "a", .prim (.num 1)), (.str "b", .prim (.num 2))]
        [(.str "a", [("1@A", .prim (.num 1))]), (.str "b", [("2@A", .prim (.num 2))])]) =
      some "child" ∧
     valueAt (.map "child" true
        [(.str "a", .prim (.num 1)), (.str "b", .prim (.num 2))]
        [(.str "a", [("1@A", .prim (.num 1))]), (.str "b", [("2@A", .prim (.num 2))])])
        (.str "a") =
      valueAt (.map "child" true [(.str "a", .prim (.num 1))]
        [(.str "a", [("1@A", .prim (.num 1))])]) (.str "a") ∧
     recentAt (.map "child" true
        [(.str "a", .prim (.num 1)), (.str "b", .prim (.num 2))]
        [(.str "a", [("1@A", .prim (.num 1))]), (.str "b", [("2@A", .prim (.num 2))])])
        (.str "a") =
      recentAt (.map "child" true [(.str "a", .prim (.num 1))]
        [(.str "a", [("1@A", .prim (.num 1))])]) (.str "a")) ∧
    (objectIdOf (.map "other" true [(.str "b", .prim (.num 2))]
        [(.str "b", [("2@A", .prim (.num 2))])]) = some "other" ∧
     valueAt (.map "other" true [(.str "b", .prim (.num 2))]
        [(.str "b", [("2@A", .prim (.num 2))])]) (.str "a") = none ∧
     recentAt (.map "other" true [(.str "b", .prim (.num 2))]
        [(.str "b", [("2@A", .prim (.num 2))])]) (.str "a") = none) :=
  ⟨(C4_identity_merge 10 "child" "child" true [(.str "a", .prim (.num 1))]
      [(.str "a", [("1@A", .prim (.num 1))])] none none
      [(.str "b", [("2@A", .mk none none (some (.num 2)) none none none)])] none
      (.str "a") (by decide)).1 rfl _ rfl,
   (C4_identity_merge 10 "child" "other" true [(.str "a", .prim (.num 1))]
      [(.str "a", [("1@A", .prim (.num 1))])] none none
      [(.str "b", [("2@A", .mk none none (some (.num 2)) none none none)])] none
      (.str "a") (by decide)).2.1 (by decide) _ rfl⟩

/-! ## The Lamport order on identifier strings and the candidate sort
(used for claim C1) -/

/-- The parsed key of an identifier string (junk default on strings that
never occur under the parse hypotheses carried by the lemmas). -/
def lamKey (s : String) : Nat × String :=
  match parse_op_id s with
  | .ok t => t
  | .error _ => (0, "")

/-- Strict Lamport order on identifier strings. -/
def lamLt (a b : String) : Prop := opIdCompare (lamKey a) (lamKey b) < 0

/-- Lax Lamport order on identifier strings. -/
def lamLe (a b : String) : Prop := opIdCompare (lamKey a) (lamKey b) ≤ 0

theorem lamport_compare_of_ok (a b : String) (ha : parseOk a = true)
    (hb : parseOk b = true) :
    lamport_compare a b = .ok (opIdCompare (lamKey a) (lamKey b)) := by
  unfold parseOk at ha hb
  cases hpa : parse_op_id a with
  | error e => rw [hpa] at ha; cases ha
  | ok ta =>
    cases hpb : parse_op_id b with
    | error e => rw [hpb] at hb; cases hb
    | ok tb =>
      unfold lamport_compare lamKey
      rw [hpa, hpb]

theorem lamLe_iff (a b : String) :
    lamLe a b ↔ (lamLt a b ∨ lamKey a = lamKey b) := by
  unfold lamLe lamLt
  constructor
  · intro h
    rcases lt_or_eq_of_le h with h' | h'
    · exact Or.inl h'
    · exact Or.inr ((opIdCompare_zero_iff _ _).mp h')
  · rintro (h | h)
    · exact le_of_lt h
    · rw [(opIdCompare_zero_iff _ _).mpr h]

theorem lamLt_of_le_ne (a b : String) (h : lamLe a b)
    (hne : lamKey a ≠ lamKey b) : lamLt a b := by
  rcases (lamLe_iff a b).mp h with h' | h'
  · exact h'
  · exact absurd h' hne

theorem lamLt_le_trans {a b c : String} (h1 : lamLt a b) (h2 : lamLe b c) :
    lamLe a c := by
  rcases (lamLe_iff b c).mp h2 with h' | h'
  · exact le_of_lt (opIdCompare_trans_lt h1 h')
  · unfold lamLe
    rw [← h']
    exact le_of_lt h1

theorem lamLe_rev_of_not_lt {a b : String} (h : ¬ lamLt a b) : lamLe b a := by
  unfold lamLt at h
  unfold lamLe
  rw [opIdCompare_neg]
  omega

instance : IsAntisymm String lamLt :=
  ⟨fun a b h1 h2 => by
    exfalso
    unfold lamLt at h1 h2
    rw [opIdCompare_neg] at h2
    omega⟩

theorem insertCmpM_sorted (x : String) (hx : parseOk x = true) :
    ∀ (l : List String), (∀ y ∈ l, parseOk y = true) → l.Pairwise lamLe →
    ∃ out, insertCmpM x l = .ok out ∧ List.Perm out (x :: l) ∧
      out.Pairwise lamLe := by
  intro l
  induction l with
  | nil =>
    intro _ _
    exact ⟨[x], rfl, List.Perm.refl _, List.pairwise_singleton _ _⟩
  | cons y ys ih =>
    intro hl hs
    have hy : parseOk y = true := hl y (by simp)
    have hcmp := lamport_compare_of_ok x y hx hy
    rw [List.pairwise_cons] at hs
    unfold insertCmpM
    rw [hcmp]
    dsimp only
    by_cases hlt : opIdCompare (lamKey x) (lamKey y) < 0
    · rw [if_pos hlt]
      refine ⟨x :: y :: ys, rfl, List.Perm.refl _, ?_⟩
      rw [List.pairwise_cons]
      refine ⟨?_, List.pairwise_cons.mpr hs⟩
      intro z hz
      rcases List.mem_cons.mp hz with hz | hz
      · subst hz
        exact le_of_lt hlt
      · exact lamLt_le_trans hlt (hs.1 z hz)
    · rw [if_neg hlt]
      obtain ⟨out2, ho, hperm, hpw⟩ := ih (fun z hz => hl z (by simp [hz])) hs.2
      rw [ho]
      refine ⟨y :: out2, rfl, ?_, ?_⟩
      · exact (hperm.cons y).trans (List.Perm.swap x y ys)
      · rw [List.pairwise_cons]
        refine ⟨?_, hpw⟩
        intro z hz
        rcases List.mem_cons.mp (hperm.mem_iff.mp hz) with hz' | hz'
        · subst hz'
          exact lamLe_rev_of_not_lt hlt
        · exact hs.1 z hz'

theorem sortM_sorted :
    ∀ (l : List String), (∀ x ∈ l, parseOk x = true) →
    ∃ out, sortM l = .ok out ∧ List.Perm out l ∧ out.Pairwise lamLe := by
  intro l
  induction l with
  | nil => exact fun _ => ⟨[], rfl, List.Perm.refl _, List.Pairwise.nil⟩
  | cons x xs ih =>
    intro hl
    obtain ⟨out1, ho1, hp1, hpw1⟩ := ih (fun z hz => hl z (by simp [hz]))
    have hx : parseOk x = true := hl x (by simp)
    obtain ⟨out, hio, hip, hipw⟩ := insertCmpM_sorted x hx out1
      (fun z hz => hl z (List.mem_cons_of_mem x (hp1.mem_iff.mp hz))) hpw1
    refine ⟨out, ?_, hip.trans (hp1.cons x), hipw⟩
    unfold sortM
    rw [ho1]
    exact hio

theorem sortM_strict (l : List String) (hl : ∀ x ∈ l, parseOk x = true)
    (hnd : (l.map lamKey).Nodup) :
    ∃ out, sortM l = .ok out ∧ List.Perm out l ∧ out.Pairwise lamLt := by
  obtain ⟨out, ho, hp, hpw⟩ := sortM_sorted l hl
  have hndo : (out.map lamKey).Nodup := ((hp.map lamKey).nodup_iff).mpr hnd
  have hpne : out.Pairwise (fun a b => lamKey a ≠ lamKey b) :=
    List.pairwise_map.mp hndo
  exact ⟨out, ho, hp, (hpw.and hpne).imp (fun h => lamLt_of_le_ne _ _ h.1 h.2)⟩

/-! ## Lookup lemmas and the candidate loop (used for claim C1) -/

theorem alGet_eq_none_iff {κ α : Type _} [DecidableEq κ] (k : κ)
    (l : List (κ × α)) : alGet k l = none ↔ k ∉ l.map Prod.fst := by
  induction l with
  | nil => simp [alGet]
  | cons kv rest ih =>
    obtain ⟨k0, v0⟩ := kv
    by_cases h : k = k0
    · subst h; simp [alGet]
    · simp [alGet, h, ih, Ne.symm h]

theorem alGet_mem {κ α : Type _} [DecidableEq κ] (k : κ) (v : α)
    (l : List (κ × α)) (h : alGet k l = some v) : (k, v) ∈ l := by
  induction l with
  | nil => cases h
  | cons kv rest ih =>
    obtain ⟨k0, v0⟩ := kv
    by_cases h0 : k = k0
    · subst h0
      rw [show alGet k ((k, v0) :: rest) = some v0 from by simp [alGet]] at h
      cases h
      exact List.mem_cons_self _ _
    · rw [show alGet k ((k0, v0) :: rest) = alGet k rest from by simp [alGet, h0]] at h
      exact List.mem_cons_of_mem _ (ih h)

theorem alGet_of_mem_nodup {κ α : Type _} [DecidableEq κ] (k : κ) (v : α)
    (l : List (κ × α)) (hnd : (l.map Prod.fst).Nodup) (h : (k, v) ∈ l) :
    alGet k l = some v := by
  induction l with
  | nil => cases h
  | cons kv rest ih =>
    obtain ⟨k0, v0⟩ := kv
    rw [List.map_cons, List.nodup_cons] at hnd
    rcases List.mem_cons.mp h with h' | h'
    · cases h'
      simp [alGet]
    · have hne : k ≠ k0 := by
        intro hcon
        subst hcon
        exact hnd.1 (List.mem_map.mpr ⟨(k, v), h', rfl⟩)
      simp [alGet, hne, ih hnd.2 h']

theorem alGet_perm {κ α : Type _} [DecidableEq κ] (l₁ l₂ : List (κ × α))
    (hnd : (l₁.map Prod.fst).Nodup) (hp : List.Perm l₁ l₂) (k : κ) :
    alGet k l₁ = alGet k l₂ := by
  have hnd₂ : (l₂.map Prod.fst).Nodup := ((hp.map Prod.fst).nodup_iff).mp hnd
  cases hg : alGet k l₁ with
  | none =>
    rw [alGet_eq_none_iff] at hg
    have : k ∉ l₂.map Prod.fst := fun hc => hg ((hp.map Prod.fst).mem_iff.mpr hc)
    exact ((alGet_eq_none_iff k l₂).mpr this).symm
  | some v =>
    exact ((alGet_of_mem_nodup k v l₂ hnd₂ (hp.mem_iff.mp (alGet_mem k v l₁ hg)))).symm

theorem merge_loop_spec :
    ∀ (ids : List String) (f : Nat) (obj : Value) (k : PKey) (cands : Cands)
      (acc out : List (String × Value)),
    ids.Nodup → merge_loop f obj k cands ids acc = some (.ok out) →
    (∀ id, id ∉ ids → alGet id out = alGet id acc) ∧
    (∀ id ∈ ids, ∃ sp g w, alGet id cands = some sp ∧
      candidate_value g obj k id sp = some (.ok w) ∧ alGet id out = some w) := by
  intro ids
  induction ids with
  | nil =>
    intro f obj k cands acc out hnd h
    cases f with
    | zero => cases h
    | succ f =>
      cases h
      exact ⟨fun id _ => rfl, fun id hid => absurd hid (List.not_mem_nil id)⟩
  | cons id rest ih =>
    intro f obj k cands acc out hnd h
    cases f with
    | zero => cases h
    | succ f =>
      unfold merge_loop at h
      cases hga : alGet id cands with
      | none => rw [hga] at h; cases h
      | some sp =>
        rw [hga] at h
        dsimp only at h
        cases hcv : candidate_value f obj k id sp with
        | none => rw [hcv] at h; cases h
        | some cres =>
          rw [hcv] at h
          cases cres with
          | error e => cases h
          | ok w =>
            rw [List.nodup_cons] at hnd
            obtain ⟨ih1, ih2⟩ := ih f obj k cands (alSet id w acc) out hnd.2 h
            constructor
            · intro id' hid'
              have h1 : id' ∉ rest := fun hc => hid' (by simp [hc])
              have h2 : id' ≠ id := fun hc => hid' (by simp [hc])
              rw [ih1 id' h1, alGet_alSet_ne id id' w acc h2]
            · intro id' hid'
              rcases List.mem_cons.mp hid' with hc | hc
              · subst hc
                refine ⟨sp, f, w, hga, hcv, ?_⟩
                rw [ih1 id' hnd.1, alGet_alSet_self]
              · exact ih2 id' hc

theorem merge_loop_congr (cands₁ cands₂ : Cands)
    (hg : ∀ id, alGet id cands₂ = alGet id cands₁) :
    ∀ (f : Nat) (obj : Value) (k : PKey) (ids : List String)
      (acc : List (String × Value)),
    merge_loop f obj k cands₂ ids acc = merge_loop f obj k cands₁ ids acc := by
  intro f
  induction f with
  | zero => intro obj k ids acc; rfl
  | succ f ih =>
    intro obj k ids acc
    cases ids with
    | nil => rfl
    | cons id rest =>
      unfold merge_loop
      rw [hg id]
      cases alGet id cands₁ with
      | none => rfl
      | some sp =>
        dsimp only
        cases candidate_value f obj k id sp with
        | none => rfl
        | some cres =>
          cases cres with
          | error e => rfl
          | ok w => exact ih obj k rest (alSet id w acc)

theorem writeKey_ok_at (obj : Value) (k : PKey) (id0 : String)
    (values : List (String × Value)) (obj' : Value)
    (h : writeKey obj k id0 values = (obj', none)) :
    ∃ w, alGet id0 values = some w ∧ valueAt obj' k = some w ∧
      recentAt obj' k = some values := by
  unfold writeKey at h
  cases hg : alGet id0 values with
  | none => rw [hg] at h; simp at h
  | some w =>
    rw [hg] at h
    refine ⟨w, rfl, ?_⟩
    cases obj with
    | prim q => simp at h
    | counter q => simp at h
    | map o fz e r =>
      dsimp only at h
      cases h
      constructor
      · simp [valueAt, alGet_alSet_self]
      · simp [recentAt, alGet_alSet_self]
    | list o fz vs eids r =>
      cases k with
      | str s => simp at h
      | idx n =>
        dsimp only at h
        by_cases h1 : n < vs.length
        · rw [if_pos h1] at h
          by_cases h2 : n < r.length
          · rw [if_pos h2] at h
            cases h
            constructor
            · show ((vs.set n (some w)).get? n).join = some w
              rw [List.get?_set_eq_of_lt (some w) h1]
              rfl
            · show ((r.set n (some values)).get? n).join = some values
              rw [List.get?_set_eq_of_lt (some values) h2]
              rfl
          · rw [if_neg h2] at h
            simp at h
        · rw [if_neg h1] at h
          simp at h

/-- The property of one conflict-register merge that claim C1 states: the
visible value at the slot is the materialized winner of the Lamport-greatest
candidate, the conflict history at the slot is exactly the freshly
recomputed mapping over the OperationIds present in the conflict set, and
the merge does not depend on the iteration order of the candidate
mapping. -/
def C1Concl (f : Nat) (obj : Value) (k : PKey) (cands : Cands)
    (obj' : Value) : Prop :=
  (∃ maxId, maxId ∈ cands.map Prod.fst ∧
    (∀ id ∈ cands.map Prod.fst, id ≠ maxId → lamLt id maxId) ∧
    (∃ sp w, alGet maxId cands = some sp ∧
      (∃ g, candidate_value g obj k maxId sp = some (.ok w)) ∧
      valueAt obj' k = some w)) ∧
  (∃ vals, recentAt obj' k = some vals ∧
    (∀ id sp, alGet id cands = some sp →
      ∃ w, (∃ g, candidate_value g obj k id sp = some (.ok w)) ∧
        alGet id vals = some w) ∧
    (∀ id, alGet id cands = none → alGet id vals = none)) ∧
  (∀ cands₂, List.Perm cands₂ cands →
    merge_key f obj k cands₂ = merge_key f obj k cands)

/-- Claim C1: for any container and any key or index whose conflict set is
non-empty (with all OperationIds parsable and no Lamport ties, as the spec
assumes), a successful per-key merge stores as the visible value the
materialization of the candidate with the Lamport-greatest OperationId,
replaces the conflict history of the slot with exactly the freshly
recomputed mapping from the OperationIds present in the conflict set to
their materialized values (stale candidates are dropped), and produces the
same result for every iteration order of the candidate mapping. -/
theorem C1_conflict_register_merge (f : Nat) (obj : Value) (k : PKey)
    (cands : Cands) (obj' : Value) (hne : cands ≠ [])
    (hpar : ∀ id ∈ cands.map Prod.fst, parseOk id = true)
    (hnd : ((cands.map Prod.fst).map lamKey).Nodup)
    (h : merge_key f obj k cands = some (obj', none)) :
    C1Concl f obj k cands obj' := by
  cases f with
  | zero => cases h
  | succ f =>
    have hkeysnd : (cands.map Prod.fst).Nodup := hnd.of_map
    obtain ⟨out, hs, hp, hpw⟩ := sortM_strict (cands.map Prod.fst) hpar hnd
    unfold merge_key at h
    rw [hs] at h
    dsimp only at h
    have houtne : out ≠ [] := by
      intro hcon
      apply hne
      rw [hcon] at hp
      have hmapnil : cands.map Prod.fst = [] := hp.symm.eq_nil
      exact List.map_eq_nil.mp hmapnil
    cases hrev : out.reverse with
    | nil =>
      rw [List.reverse_eq_nil_iff] at hrev
      exact absurd hrev houtne
    | cons id0 rest =>
      rw [hrev] at h
      cases hm : merge_loop f obj k cands (id0 :: rest) [] with
      | none => rw [hm] at h; cases h
      | some mres =>
        rw [hm] at h
        cases mres with
        | error e => cases h
        | ok values =>
          have hw : writeKey obj k id0 values = (obj', none) := Option.some.inj h
          obtain ⟨w0, hget0, hval0, hrec0⟩ := writeKey_ok_at obj k id0 values obj' hw
          have hndo : out.Nodup :=
            (((hp.map lamKey).nodup_iff).mpr hnd).of_map
          have hndr : (id0 :: rest).Nodup := by
            rw [← hrev]
            exact List.nodup_reverse.mpr hndo
          obtain ⟨hnotin, hin⟩ :=
            merge_loop_spec (id0 :: rest) f obj k cands [] values hndr hm
          have hout : out = rest.reverse ++ [id0] := by
            rw [← List.reverse_reverse out, hrev, List.reverse_cons]
          have hid0out : id0 ∈ out := by
            rw [hout]
            simp
          unfold C1Concl
          refine ⟨⟨id0, hp.mem_iff.mp hid0out, ?_, ?_⟩, ⟨values, hrec0, ?_, ?_⟩, ?_⟩
          · intro id hidk hne0
            have hidout : id ∈ out := hp.mem_iff.mpr hidk
            rw [hout] at hidout hpw
            obtain ⟨_, _, hcross⟩ := List.pairwise_append.mp hpw
            rcases List.mem_append.mp hidout with hmem | hmem
            · exact hcross id hmem id0 (by simp)
            · exact absurd (by simpa using hmem) hne0
          · obtain ⟨sp, g, w, hlook, hcv, hvv⟩ := hin id0 (by simp)
            refine ⟨sp, w0, hlook, ⟨g, ?_⟩, hval0⟩
            rw [hvv] at hget0
            cases hget0
            exact hcv
          · intro id sp hga
            have hidk : id ∈ cands.map Prod.fst :=
              List.mem_map.mpr ⟨(id, sp), alGet_mem id sp cands hga, rfl⟩
            have hidrev : id ∈ id0 :: rest := by
              rw [← hrev]
              exact List.mem_reverse.mpr (hp.mem_iff.mpr hidk)
            obtain ⟨sp1, g, w, hlook1, hcv, hvv⟩ := hin id hidrev
            rw [hga] at hlook1
            cases hlook1
            exact ⟨w, ⟨g, hcv⟩, hvv⟩
          · intro id hnone
            have hidk : id ∉ cands.map Prod.fst := (alGet_eq_none_iff id cands).mp hnone
            have hidrev : id ∉ id0 :: rest := by
              rw [← hrev]
              intro hc
              exact hidk (hp.mem_iff.mp (List.mem_reverse.mp hc))
            exact hnotin id hidrev
          · intro cands₂ hperm2
            have hkp : List.Perm (cands₂.map Prod.fst) (cands.map Prod.fst) :=
              hperm2.map Prod.fst
            have hpar₂ : ∀ id ∈ cands₂.map Prod.fst, parseOk id = true :=
              fun id hid => hpar id (hkp.mem_iff.mp hid)
            have hnd₂ : ((cands₂.map Prod.fst).map lamKey).Nodup :=
              ((hkp.map lamKey).nodup_iff).mpr hnd
            obtain ⟨out₂, hs₂, hp₂, hpw₂⟩ :=
              sortM_strict (cands₂.map Prod.fst) hpar₂ hnd₂
            have hout_eq : out₂ = out :=
              List.eq_of_perm_of_sorted (hp₂.trans (hkp.trans hp.symm)) hpw₂ hpw
            have hgets : ∀ id, alGet id cands₂ = alGet id cands :=
              fun id => (alGet_perm cands cands₂ hkeysnd hperm2.symm id).symm
            show merge_key (f + 1) obj k cands₂ = merge_key (f + 1) obj k cands
            unfold merge_key
            rw [hs₂, hs, hout_eq]
            dsimp only
            rw [merge_loop_congr cands cands₂ hgets f obj k out.reverse []]

/-- Witness for C1 at a two-candidate conflict set on an empty map. -/
theorem C1_witness :
    C1Concl 10 (.map "o" true [] []) (.str "x")
      [("3@A", .mk none none (some (.num 10)) none none none),
       ("5@B", .mk none none (some (.num 20)) none none none)]
      (.map "o" true [(.str "x", .prim (.num 20))]
        [(.str "x", [("5@B", .prim (.num 20)), ("3@A", .prim (.num 10))])]) :=
  C1_conflict_register_merge 10 (.map "o" true [] []) (.str "x")
    [("3@A", .mk none none (some (.num 10)) none none none),
     ("5@B", .mk none none (some (.num 20)) none none none)]
    (.map "o" true [(.str "x", .prim (.num 20))]
      [(.str "x", [("5@B", .prim (.num 20)), ("3@A", .prim (.num 10))])])
    (by simp) (by decide) (by decide) rfl

end AutomergePy
